import Mathlib

/-!
# Social-media analytics: aggregation and caching engine

A shallow embedding of `src/api/apiService.js`, `src/pages/Feed.js`,
`src/pages/TopUsers.js` and `src/pages/TrendingPosts.js`, and the properties of
the data-aggregation engine proved over it.

Modelling conventions.

* A JavaScript string is the list of its UTF-16 code units (`length` and
  `substring` count code units).
* A JSON scalar is a `JSValue`. Its numbers are the integer-valued numbers of
  the safe-integer range (`SafeInteger`), which `Number.prototype.toString`
  prints as their decimal digits; other numbers are not values of the type.
* The plain objects `userMap` and `userPostCounts` are created by `{}` and so
  inherit from `Object.prototype`: a read of a key that is not an own property
  finds the inherited member of that name, and `__proto__` is the accessor of
  the object's prototype.
* A thrown exception or rejected promise is `Except.error`.
* The wall clock and the upstream service are explicit arguments.
-/

namespace SocialMediaAnalytics

/-! ## JavaScript values -/

/-- A JavaScript string, as the list of its UTF-16 code units. -/
abbrev JSString := List Nat

/-- The code units of a string of ASCII characters. -/
def ascii (s : String) : JSString := s.toList.map Char.toNat

/-- An integer-valued number of the safe-integer range, by sign and
magnitude (below `2^53`); with magnitude 0 both signs are the number zero. -/
structure SafeInteger where
  negative : Bool
  magnitude : Fin 9007199254740992
  deriving DecidableEq, Repr

/-- The non-negative safe integer `n` (taken modulo `2^53`). -/
def SafeInteger.ofNat (n : Nat) : SafeInteger :=
  { negative := false
    magnitude := ⟨n % 9007199254740992, Nat.mod_lt _ (by decide)⟩ }

/-- The JSON scalars a field of an upstream record may hold; `undefined` is a
missing field. -/
inductive JSValue where
  | undefined
  | null
  | boolean (b : Bool)
  | number (n : SafeInteger)
  | string (s : JSString)
  deriving DecidableEq, Repr

/-- What a computation throws (or a promise rejects with). -/
inductive JSError where
  | typeError
  | networkError
  | syntaxError
  deriving DecidableEq, Repr

/-- Decimal digits of a natural number as code units, most significant first. -/
def decimalDigits : Nat → Nat → List Nat
  | 0, _ => []
  | fuel + 1, n =>
    if n < 10 then [48 + n] else decimalDigits fuel (n / 10) ++ [48 + n % 10]

/-- The method `Number.prototype.toString` on a safe integer: the decimal
digits, after a minus sign for a negative number. -/
def numberToString (n : SafeInteger) : JSString :=
  if n.negative = true ∧ n.magnitude.val ≠ 0 then
    45 :: decimalDigits (n.magnitude.val + 1) n.magnitude.val
  else decimalDigits (n.magnitude.val + 1) n.magnitude.val

/-- The method call `v.toString()`: a `TypeError` on `undefined` and `null`. -/
def JSValue.toStringCall : JSValue → Except JSError JSString
  | .undefined => .error .typeError
  | .null => .error .typeError
  | .boolean true => .ok [116, 114, 117, 101]
  | .boolean false => .ok [102, 97, 108, 115, 101]
  | .number n => .ok (numberToString n)
  | .string s => .ok s

/-- The method `String.prototype.substring(start, end)` for non-negative integer
indices. -/
def substring (s : JSString) (start stop : Nat) : JSString :=
  (s.take (max start stop)).drop (min start stop)

/-- The string literal `'...'`. -/
def ellipsis : JSString := [46, 46, 46]

/-- The key `__proto__`, the accessor of an object's prototype. -/
def protoKey : JSString := ascii "__proto__"

/-- The names of the function-valued members of `Object.prototype`. -/
def objectPrototypeFunctions : List JSString :=
  [ascii "constructor", ascii "__defineGetter__", ascii "__defineSetter__",
   ascii "hasOwnProperty", ascii "__lookupGetter__", ascii "__lookupSetter__",
   ascii "isPrototypeOf", ascii "propertyIsEnumerable", ascii "toString",
   ascii "valueOf", ascii "toLocaleString"]

/-- The method `Array.prototype.map` with a callback `(element, index) => ...` that may
throw: the first exception, in element order, propagates. The callback takes
the index first. -/
def arrayMap {ε α β : Type} (f : Nat → α → Except ε β) : List α → Except ε (List β)
  | [] => .ok []
  | a :: as =>
    match f 0 a with
    | .error e => .error e
    | .ok b =>
      match arrayMap (fun i => f (i + 1)) as with
      | .error e => .error e
      | .ok bs => .ok (b :: bs)

/-! ## Data model -/

/-- A user record `{ id, name }` as built by `fetchUsers`. -/
structure User where
  id : JSString
  name : JSValue
  deriving DecidableEq, Repr

/-- A post as returned by the upstream service. -/
structure Post where
  id : JSValue
  userid : JSValue
  content : JSValue
  deriving DecidableEq, Repr

/-- A comment; only the number of comments of a post is used. -/
structure Comment where
  body : JSValue
  deriving DecidableEq, Repr

/-- What a read `userMap[key]` yields: a user object, a function inherited from
`Object.prototype`, the object `Object.prototype` itself, or a primitive
(`primitive .undefined` when nothing is found). -/
inductive OwnerValue where
  | user (u : User)
  | builtin (name : JSString)
  | objectPrototype
  | primitive (v : JSValue)
  deriving DecidableEq, Repr

/-- The object `userMap`: its own properties (under keys other than
`__proto__`) and, once `map['__proto__'] = user` has run, the user object that
assignment installed as its prototype in place of `Object.prototype`. -/
structure UserMap where
  own : JSString → Option User
  proto : Option User

/-- The object literal `{}`. -/
def UserMap.empty : UserMap := { own := fun _ => none, proto := none }

/-- The assignment `map[key] = user`: under `__proto__` the inherited setter
makes the user object the prototype of `map`; under any other key it writes an
own property. -/
def UserMap.set (map : UserMap) (key : JSString) (user : User) : UserMap :=
  if key = protoKey then { map with proto := some user }
  else { map with own := fun k => if k = key then some user else map.own k }

/-- A read of `key` on `Object.prototype`. -/
def objectPrototypeGet (key : JSString) : OwnerValue :=
  if key ∈ objectPrototypeFunctions then .builtin key else .primitive .undefined

/-- The read `map[key]`: under `__proto__` the prototype of `map`; otherwise
the own property, and failing that the property found along the prototype
chain (the fields `id` and `name` of an installed user object, then
`Object.prototype`). -/
def UserMap.get (map : UserMap) (key : JSString) : OwnerValue :=
  if key = protoKey then
    match map.proto with
    | some u => .user u
    | none => .objectPrototype
  else
    match map.own key with
    | some u => .user u
    | none =>
      match map.proto with
      | some u =>
        if key = ascii "id" then .primitive (.string u.id)
        else if key = ascii "name" then .primitive u.name
        else objectPrototypeGet key
      | none => objectPrototypeGet key

/-- The lookup table built by
`users.reduce((map, user) => { map[user.id] = user; return map; }, {})`. -/
def userMap (users : List User) : UserMap :=
  users.foldl (fun map user => map.set user.id user) UserMap.empty

/-- The title expression
`post.content.substring(0, 30) + (post.content.length > 30 ? '...' : '')`
on a string. -/
def titleOf (content : JSString) : JSString :=
  substring content 0 30 ++ (if content.length > 30 then ellipsis else [])

/-- The title expression on an arbitrary field value: calling `substring` on a
value that is not a string throws a `TypeError`. -/
def title : JSValue → Except JSError JSString
  | .string s => .ok (titleOf s)
  | _ => .error .typeError

/-! ## Feed.js -/

/-- An element of `processedPosts` in `fetchFeedPosts`: the post's own fields
(`...post`) with `user`, `title` and `body`. The `imageUrl` and `timestamp`
fields take no part in the join and are left out. -/
structure FeedPost where
  post : Post
  user : OwnerValue
  title : JSString
  body : JSValue
  deriving DecidableEq, Repr

/-- The callback of `newPosts.map(post => (...))` in `fetchFeedPosts`. -/
def processPost (map : UserMap) (post : Post) : Except JSError FeedPost :=
  match post.userid.toStringCall with
  | .error e => .error e
  | .ok key =>
    match title post.content with
    | .error e => .error e
    | .ok t => .ok { post := post, user := map.get key, title := t, body := post.content }

/-- The value `processedPosts` of `fetchFeedPosts`. -/
def processedPosts (newPosts : List Post) (users : List User) :
    Except JSError (List FeedPost) :=
  arrayMap (fun _ post => processPost (userMap users) post) newPosts

/-! ## apiService.js -/

/-- The body of a response, reduced to the one field the caller reads
(`data.users`, `data.posts` or `data.comments`): `unparsable` when
`response.json()` rejects, `null` when the body is the JSON value `null` (reading
a field of it throws a `TypeError`), `parsed none` when the field is missing,
`parsed (some v)` when it is there. -/
inductive Body (β : Type) where
  | unparsable
  | null
  | parsed (field : Option β)
  deriving Repr

/-- What one upstream `fetch` settles to: a rejection (transport error) or a
response with its `ok` flag and body. -/
inductive Fetched (β : Type) where
  | rejected
  | response (ok : Bool) (body : Body β)
  deriving Repr

/-- A request issued to the upstream service. -/
inductive Request where
  | users
  | userPosts (userId : JSString)
  deriving DecidableEq, Repr

/-- The module-level `cache` object. -/
structure Cache where
  users : Option (List User)
  posts : Option (List Post)
  lastFetchTimeUsers : Option Int
  lastFetchTimePosts : Option Int
  deriving DecidableEq, Repr

/-- The initial value of `cache`: every entry `null`. -/
def Cache.initial : Cache :=
  { users := none, posts := none, lastFetchTimeUsers := none, lastFetchTimePosts := none }

/-- The two keys of the cache. -/
inductive CacheType where
  | users
  | posts
  deriving DecidableEq, Repr

/-- The expression `cache.lastFetchTime[type]`. -/
def Cache.lastFetchTime (cache : Cache) : CacheType → Option Int
  | .users => cache.lastFetchTimeUsers
  | .posts => cache.lastFetchTimePosts

/-- The function `isCacheValid(type)`, with `now` the value of `Date.now()`.
The guard `!cache.lastFetchTime[type]` holds for `null` and for `0`. -/
def isCacheValid (cache : Cache) (type : CacheType) (now : Int) : Bool :=
  match cache.lastFetchTime type with
  | none => false
  | some t => if t = 0 then false else decide (now - t < 5000)

/-- What a call of an exported fetch function leaves behind: its result, the
cache after it, and the upstream requests it issued. -/
structure Run (α : Type) where
  result : Except JSError α
  cache : Cache
  requests : List Request

/-- The function `fetchUsers()`. `now` is the clock when the call starts,
`upstream` what `GET /users` settles to (the parsed field is
`Object.entries(data.users)`), `done` the clock when the response has been
processed. -/
def fetchUsers (cache : Cache) (now : Int)
    (upstream : Fetched (List (JSString × JSValue))) (done : Int) : Run (List User) :=
  match isCacheValid cache .users now, cache.users with
  | true, some users => { result := .ok users, cache := cache, requests := [] }
  | _, _ =>
    match upstream with
    | .rejected => { result := .error .networkError, cache := cache, requests := [.users] }
    | .response _ .unparsable =>
      { result := .error .syntaxError, cache := cache, requests := [.users] }
    | .response _ .null =>
      { result := .error .typeError, cache := cache, requests := [.users] }
    | .response _ (.parsed none) =>
      { result := .error .typeError, cache := cache, requests := [.users] }
    | .response _ (.parsed (some entries)) =>
      let processedUsers : List User := entries.map (fun e => { id := e.1, name := e.2 })
      { result := .ok processedUsers
        cache := { cache with users := some processedUsers, lastFetchTimeUsers := some done }
        requests := [.users] }

/-- One element of `allPostsPromises` in `fetchPosts`: the chain
`fetch(...).then(r => r.json()).then(data => data.posts || []).catch(() => [])`. -/
def userPosts : Fetched (List Post) → List Post
  | .rejected => []
  | .response _ .unparsable => []
  | .response _ .null => []
  | .response _ (.parsed none) => []
  | .response _ (.parsed (some posts)) => posts

/-- The function `fetchPosts()`. `now` is the clock when the call starts;
`usersNow`, `usersUpstream` and `usersDone` are the arguments of the inner
`fetchUsers()` call; `postsUpstream i` is what `GET /users/{id}/posts` settles
to for the user at index `i`; `done` is the clock when all have settled. -/
def fetchPosts (cache : Cache) (now usersNow : Int)
    (usersUpstream : Fetched (List (JSString × JSValue))) (usersDone : Int)
    (postsUpstream : Nat → Fetched (List Post)) (done : Int) : Run (List Post) :=
  match isCacheValid cache .posts now, cache.posts with
  | true, some posts => { result := .ok posts, cache := cache, requests := [] }
  | _, _ =>
    let fetched := fetchUsers cache usersNow usersUpstream usersDone
    match fetched.result with
    | .error e => { result := .error e, cache := fetched.cache, requests := fetched.requests }
    | .ok users =>
      let userPostsArrays := users.mapIdx (fun i _ => userPosts (postsUpstream i))
      let allPosts := userPostsArrays.flatten
      { result := .ok allPosts
        cache := { fetched.cache with posts := some allPosts, lastFetchTimePosts := some done }
        requests := fetched.requests ++ users.map (fun user => Request.userPosts user.id) }

/-- The body of the `try` block of `fetchComments`. -/
def fetchCommentsTry : Fetched (List Comment) → Except JSError (List Comment)
  | .rejected => .error .networkError
  | .response false _ => .ok []
  | .response true .unparsable => .error .syntaxError
  | .response true .null => .error .typeError
  | .response true (.parsed none) => .ok []
  | .response true (.parsed (some comments)) => .ok comments

/-- The function `fetchComments(postId)`: the `try` block, with the `catch`
clause returning `[]`. `upstream` is what `GET /posts/{postId}/comments`
settles to. -/
def fetchComments (_postId : JSValue) (upstream : Fetched (List Comment)) :
    Except JSError (List Comment) :=
  match fetchCommentsTry upstream with
  | .ok comments => .ok comments
  | .error _ => .ok []


/-! ## TrendingPosts.js -/

/-- An element of `postsWithComments` in `fetchTrendingPosts`; `imageUrl` is
left out. -/
structure TrendingPost where
  post : Post
  user : OwnerValue
  title : JSString
  body : JSValue
  comments : List Comment
  commentCount : Nat
  deriving DecidableEq, Repr

/-- The async callback of `posts.map(async post => ...)` in
`fetchTrendingPosts`. -/
def postWithComments (map : UserMap) (upstream : Fetched (List Comment))
    (post : Post) : Except JSError TrendingPost :=
  match fetchComments post.id upstream with
  | .error e => .error e
  | .ok comments =>
    match post.userid.toStringCall with
    | .error e => .error e
    | .ok key =>
      match title post.content with
      | .error e => .error e
      | .ok t =>
        .ok { post := post, user := map.get key, title := t, body := post.content,
              comments := comments, commentCount := comments.length }

/-- The value `postsWithComments` of `fetchTrendingPosts`:
`await Promise.all(posts.map(...))`. `commentsUpstream i` is what the comment
request for the post at index `i` settles to. -/
def postsWithComments (posts : List Post) (users : List User)
    (commentsUpstream : Nat → Fetched (List Comment)) :
    Except JSError (List TrendingPost) :=
  arrayMap (fun i post => postWithComments (userMap users) (commentsUpstream i) post) posts

/-- The value `maxCount`:
`Math.max(...postsWithComments.map(post => post.commentCount), 0)`. -/
def maxCount (postsWithComments : List TrendingPost) : Nat :=
  (postsWithComments.map (fun post => post.commentCount)).foldr max 0

/-- The value `trending`:
`postsWithComments.filter(post => post.commentCount === maxCount && maxCount > 0)`. -/
def trending (postsWithComments : List TrendingPost) : List TrendingPost :=
  postsWithComments.filter
    (fun post => decide (post.commentCount = maxCount postsWithComments)
      && decide (maxCount postsWithComments > 0))

/-! ## TopUsers.js -/

/-- A number stored in `userPostCounts`: `NaN` or a count. -/
inductive JSNumber where
  | nan
  | finite (n : Nat)
  deriving DecidableEq, Repr

/-- What a read `userPostCounts[key]` yields, and what a `postCount` field may
hold: `undefined`, a number, a function inherited from `Object.prototype`, or
the object `Object.prototype` itself. -/
inductive CountValue where
  | undefined
  | nan
  | number (n : Nat)
  | builtin (name : JSString)
  | objectPrototype
  deriving DecidableEq, Repr

/-- The object `userPostCounts`: its own properties. Its prototype stays
`Object.prototype`, since only numbers are assigned to it. -/
structure CountsObject where
  own : JSString → Option JSNumber

/-- The object literal `{}`. -/
def CountsObject.empty : CountsObject := { own := fun _ => none }

/-- The read `counts[key]`: under `__proto__` the prototype; otherwise the own
property, and failing that the member of `Object.prototype` of that name. -/
def CountsObject.get (counts : CountsObject) (key : JSString) : CountValue :=
  if key = protoKey then .objectPrototype
  else
    match counts.own key with
    | some .nan => .nan
    | some (.finite n) => .number n
    | none => if key ∈ objectPrototypeFunctions then .builtin key else .undefined

/-- The assignment `counts[key] = v` of a number: under `__proto__` the
inherited setter ignores a value that is not an object; under any other key it
writes an own property. -/
def CountsObject.set (counts : CountsObject) (key : JSString) (v : JSNumber) :
    CountsObject :=
  if key = protoKey then counts
  else { own := fun k => if k = key then some v else counts.own k }

/-- The test `!v`: true on `undefined`, `NaN` and `0`. -/
def CountValue.falsy : CountValue → Bool
  | .undefined => true
  | .nan => true
  | .number 0 => true
  | _ => false

/-- The new value of `v++`: one more than a number, `NaN` for anything else. -/
def CountValue.increment : CountValue → JSNumber
  | .number n => .finite (n + 1)
  | _ => .nan

/-- The callback of `posts.forEach(post => ...)` in `fetchTopUsers`, on the
counter object. -/
def countPost (counts : CountsObject) (post : Post) : Except JSError CountsObject :=
  match post.userid.toStringCall with
  | .error e => .error e
  | .ok userId =>
    let counts0 :=
      if (counts.get userId).falsy then counts.set userId (.finite 0) else counts
    .ok (counts0.set userId (counts0.get userId).increment)

/-- The object `userPostCounts` after the `forEach` loop, from the given
initial object. -/
def countPosts : CountsObject → List Post → Except JSError CountsObject
  | counts, [] => .ok counts
  | counts, post :: posts =>
    match countPost counts post with
    | .error e => .error e
    | .ok counts1 => countPosts counts1 posts

/-- The object `userPostCounts` of `fetchTopUsers`. -/
def userPostCounts (posts : List Post) : Except JSError CountsObject :=
  countPosts CountsObject.empty posts

/-- An element of `usersWithPostCounts`: the user's own fields (`...user`) with
`postCount`; `imageUrl` is left out. -/
structure RankedUser where
  user : User
  postCount : CountValue
  deriving DecidableEq, Repr

/-- The expression `userPostCounts[id] || 0`. -/
def postCountOr0 (counts : CountsObject) (id : JSString) : CountValue :=
  if (counts.get id).falsy then .number 0 else counts.get id

/-- The value `usersWithPostCounts`:
`users.map(user => ({ ...user, postCount: userPostCounts[user.id] || 0 }))`. -/
def usersWithPostCounts (users : List User) (counts : CountsObject) : List RankedUser :=
  users.map (fun user => { user := user, postCount := postCountOr0 counts user.id })

/-- The number a `postCount` converts to in a subtraction; `none` is `NaN`. -/
def CountValue.toNumber : CountValue → Option Nat
  | .number n => some n
  | _ => none

/-- The comparator `(a, b) => b.postCount - a.postCount`; `none` is `NaN`. -/
def comparePostCount (a b : RankedUser) : Option Int :=
  match b.postCount.toNumber, a.postCount.toNumber with
  | some x, some y => some ((x : Int) - (y : Int))
  | _, _ => none

/-- The order the sort reads off the comparator: `a` may stand before `b` when
the comparator's result is not positive, a `NaN` result counting as `0`. -/
def mayPrecede (a b : RankedUser) : Bool :=
  match comparePostCount a b with
  | some v => decide (v ≤ 0)
  | none => true

/-- The order of the comparator, as a relation. -/
def byPostCountDesc (a b : RankedUser) : Prop := mayPrecede a b = true

instance : DecidableRel byPostCountDesc := fun a b =>
  inferInstanceAs (Decidable (mayPrecede a b = true))

/-- The value `sortedUsers`:
`usersWithPostCounts.sort((a, b) => b.postCount - a.postCount).slice(0, 5)`.
`Array.prototype.sort` is a stable sort, as is the insertion sort used here.
When some `postCount` is not a number next to two different counts, the
comparator is not consistent and ECMAScript leaves the order to the
implementation; the insertion sort then gives the order of an implementation
that inserts each element before the first one it may precede. -/
def sortedUsers (usersWithPostCounts : List RankedUser) : List RankedUser :=
  (usersWithPostCounts.insertionSort byPostCountDesc).take 5

/-- The ranking computed by `fetchTopUsers` from the fetched users and posts. -/
def topUsers (users : List User) (posts : List Post) : Except JSError (List RankedUser) :=
  match userPostCounts posts with
  | .error e => .error e
  | .ok counts => .ok (sortedUsers (usersWithPostCounts users counts))

/-! ## Specification vocabulary -/

/-- A post whose fields the join can read: `userid` has a `toString` method and
`content` is a string. -/
def Post.wellFormed (post : Post) : Bool :=
  match post.userid.toStringCall, post.content with
  | .ok _, .string _ => true
  | _, _ => false

/-- The owner attached to `post` is as the owner join requires: absent exactly
when no user has the post's owner id (as a string) for id, and a user of the
list with that id when there is one. -/
def OwnerJoined (users : List User) (post : Post) (owner : OwnerValue) : Prop :=
  (owner = .primitive .undefined ↔ ∀ u ∈ users, post.userid.toStringCall ≠ .ok u.id) ∧
  ((∃ u ∈ users, post.userid.toStringCall = .ok u.id) →
    ∃ u ∈ users, owner = .user u ∧ post.userid.toStringCall = .ok u.id)

/-- The key names no member of `Object.prototype`. -/
def plainKey (key : JSString) : Bool :=
  decide (key ≠ protoKey) && decide (key ∉ objectPrototypeFunctions)

/-- The value has a `toString` method: it is neither `undefined` nor `null`. -/
def JSValue.hasToString : JSValue → Bool
  | .undefined => false
  | .null => false
  | _ => true

/-- The post's owner id, converted to a string, is `id`. -/
def ownedBy (id : JSString) (post : Post) : Bool :=
  match post.userid.toStringCall with
  | .ok key => decide (key = id)
  | .error _ => false

/-- The number of posts whose owner id, converted to a string, is the user's
id. -/
def postCountOf (posts : List Post) (user : User) : Nat :=
  posts.countP (ownedBy user.id)

/-- The comment count the soft-failure rule prescribes for a settled comment
request: the number of comments returned on success, 0 for a failed fetch (a
transport error, a non-success response, or a body without comments). -/
def commentCountOf : Fetched (List Comment) → Nat
  | .response true (.parsed (some comments)) => comments.length
  | _ => 0

/-- The posts the degradation rule prescribes for a settled per-user request:
the posts returned, in the order returned, and the empty sequence when the
fetch failed or the body has no posts field. -/
def postsOrEmpty : Fetched (List Post) → List Post
  | .response _ (.parsed (some posts)) => posts
  | _ => []

/-- The users with their post counts that the ranking leaves out: what
`slice(0, 5)` cuts off the sorted array. -/
def leftOut (usersWithPostCounts : List RankedUser) : List RankedUser :=
  (usersWithPostCounts.insertionSort byPostCountDesc).drop 5

/-- The count stored under `key`, 0 when none is. -/
def CountsObject.countAt (counts : CountsObject) (key : JSString) : Nat :=
  match counts.own key with
  | some (.finite n) => n
  | _ => 0

/-- The post count of a ranked user as a number, 0 when it is not one. -/
def RankedUser.rank (r : RankedUser) : Nat := r.postCount.toNumber.getD 0

/-- The order of the post counts themselves: `b` has at most the count of
`a`. -/
def countDesc (a b : Nat) : Prop := b ≤ a

instance : DecidableRel countDesc := fun a b => inferInstanceAs (Decidable (b ≤ a))

instance : IsTotal Nat countDesc := ⟨fun a b => Nat.le_total b a⟩

instance : IsTrans Nat countDesc := ⟨fun _ _ _ hab hbc => Nat.le_trans hbc hab⟩

/-! ## Sample data -/

/-- The string `"1"`. -/
def sampleId1 : JSString := [49]

/-- The string `"2"`. -/
def sampleId2 : JSString := [50]

/-- Two users, with ids `"1"` and `"2"` and names `"A"` and `"B"`. -/
def sampleUsers : List User :=
  [{ id := sampleId1, name := .string [65] }, { id := sampleId2, name := .string [66] }]

/-- Three posts: one of user 1 (numeric owner id), one of user 2 (string owner
id), one of an unknown user 7. -/
def samplePosts : List Post :=
  [{ id := .number (.ofNat 10), userid := .number (.ofNat 1),
     content := .string [104, 105] },
   { id := .number (.ofNat 11), userid := .string [50],
     content := .string (List.replicate 45 97) },
   { id := .number (.ofNat 12), userid := .number (.ofNat 7), content := .string [] }]

/-- Comment responses by post index: two comments, a transport error, a
non-success response. -/
def sampleComments : Nat → Fetched (List Comment)
  | 0 => .response true (.parsed (some [{ body := .null }, { body := .null }]))
  | 1 => .rejected
  | _ => .response false .unparsable

/-- The user whose id is the decimal string of `n`, without a name. -/
def sampleUser (n : Nat) : User :=
  { id := numberToString (.ofNat n), name := .undefined }

/-- Six users, with ids `"1"` to `"6"`. -/
def sampleSixUsers : List User :=
  [sampleUser 1, sampleUser 2, sampleUser 3, sampleUser 4, sampleUser 5, sampleUser 6]

/-- A post with the given numeric owner id. -/
def samplePostOf (owner : Nat) : Post :=
  { id := .undefined, userid := .number (.ofNat owner), content := .undefined }

/-- Six posts: three of user 3, two of user 5, one of user 1. -/
def sampleOwnedPosts : List Post :=
  [samplePostOf 3, samplePostOf 5, samplePostOf 3, samplePostOf 1, samplePostOf 5,
   samplePostOf 3]

/-- Post responses by user index: two posts for the first user, a transport
error for the second. -/
def samplePostsUpstream : Nat → Fetched (List Post)
  | 0 => .response true (.parsed (some [samplePostOf 1, samplePostOf 1]))
  | _ => .rejected

/-- The entries of the upstream user mapping: ids `"1"` and `"2"`. -/
def sampleEntries : List (JSString × JSValue) :=
  [(sampleId1, .string [65]), (sampleId2, .string [66])]

/-- The cache after a `fetchPosts()` call from the empty cache that found no
users and completed at clock 1100. -/
def cacheAfterPosts : Cache :=
  { users := some [], posts := some [], lastFetchTimeUsers := some 1100,
    lastFetchTimePosts := some 1100 }

/-- The cache after a further `fetchUsers()` call that completed at clock
6300. -/
def cacheAfterUsers : Cache :=
  { users := some [], posts := some [], lastFetchTimeUsers := some 6300,
    lastFetchTimePosts := some 1100 }

/-- A post of user 1 whose `content` field is missing. -/
def postWithoutContent : Post :=
  { id := .number (.ofNat 20), userid := .number (.ofNat 1), content := .undefined }

/-- A post whose `userid` field is missing. -/
def postWithoutOwner : Post :=
  { id := .number (.ofNat 21), userid := .undefined, content := .string [104, 105] }

/-- A trending record with the given post id and comment count. -/
def sampleTrending (id : Nat) (count : Nat) : TrendingPost :=
  { post := { id := .number (.ofNat id), userid := .number (.ofNat 1),
              content := .string [] },
    user := .primitive .undefined, title := [], body := .string [], comments := [],
    commentCount := count }

/-- The user with the given ASCII id and name. -/
def namedUser (id name : String) : User :=
  { id := ascii id, name := .string (ascii name) }

/-- A post with the given ASCII string for owner id and no other field. -/
def postOwnedBy (owner : String) : Post :=
  { id := .undefined, userid := .string (ascii owner), content := .undefined }

/-- The post `{ id: 1, userid: 'constructor', content: 'x' }`. -/
def postOfConstructor : Post :=
  { id := .number (.ofNat 1), userid := .string (ascii "constructor"),
    content := .string (ascii "x") }

/-- The users `a`, `b`, `c`, `d`, `constructor` and `z`, in this order. -/
def usersWithConstructor : List User :=
  [namedUser "a" "A", namedUser "b" "B", namedUser "c" "C", namedUser "d" "D",
   namedUser "constructor" "E", namedUser "z" "Z"]

/-! ## Properties -/

/-! ### Arrays and objects -/

theorem arrayMap_eq_ok {ε α β : Type} (g : Nat → α → β) (l : List α) :
    ∀ (f : Nat → α → Except ε β),
      (∀ i (hi : i < l.length), f i l[i] = .ok (g i l[i])) →
      arrayMap f l = .ok (l.mapIdx g) := by
  induction l generalizing g with
  | nil => intro f _; rfl
  | cons a l ih =>
    intro f h
    have h0 : f 0 a = .ok (g 0 a) := h 0 (Nat.succ_pos _)
    have ht : arrayMap (fun i => f (i + 1)) l = .ok (l.mapIdx (fun i => g (i + 1))) :=
      ih (fun i => g (i + 1)) (fun i => f (i + 1))
        (fun i hi => h (i + 1) (Nat.succ_lt_succ hi))
    simp only [arrayMap, h0, ht, List.mapIdx_cons]

theorem arrayMap_eq_error {ε α β : Type} (e : ε) (l : List α) :
    ∀ (f : Nat → α → Except ε β),
      (∀ i a e', f i a = .error e' → e' = e) →
      (∃ i, ∃ hi : i < l.length, ∃ e', f i l[i] = .error e') →
      arrayMap f l = .error e := by
  induction l with
  | nil => rintro f _ ⟨i, hi, _⟩; exact absurd hi (Nat.not_lt_zero _)
  | cons a l ih =>
    rintro f hall ⟨i, hi, e', he⟩
    cases h0 : f 0 a with
    | error e0 =>
      have := hall 0 a e0 h0
      subst this
      simp [arrayMap, h0]
    | ok b =>
      cases i with
      | zero => simp [h0] at he
      | succ j =>
        have ht : arrayMap (fun i => f (i + 1)) l = .error e :=
          ih (fun i => f (i + 1)) (fun i a e' => hall (i + 1) a e')
            ⟨j, Nat.lt_of_succ_lt_succ hi, e', he⟩
        simp [arrayMap, h0, ht]


theorem plainKey_iff (key : JSString) :
    plainKey key = true ↔ key ≠ protoKey ∧ key ∉ objectPrototypeFunctions := by
  simp [plainKey]

theorem foldl_set_proto (users : List User) :
    ∀ (map : UserMap), (∀ u ∈ users, u.id ≠ protoKey) →
      (users.foldl (fun map user => map.set user.id user) map).proto = map.proto := by
  induction users with
  | nil => intro map _; rfl
  | cons a l ih =>
    intro map h
    have ha : a.id ≠ protoKey := h a (List.mem_cons_self _ _)
    rw [List.foldl_cons, ih _ (fun u hu => h u (List.mem_cons_of_mem _ hu))]
    simp [UserMap.set, ha]

theorem foldl_set_own_eq_none_iff (users : List User) :
    ∀ (map : UserMap) (k : JSString), (∀ u ∈ users, u.id ≠ protoKey) →
      ((users.foldl (fun map user => map.set user.id user) map).own k = none ↔
        map.own k = none ∧ ∀ u ∈ users, u.id ≠ k) := by
  induction users with
  | nil => intro map k _; simp
  | cons a l ih =>
    intro map k h
    have ha : a.id ≠ protoKey := h a (List.mem_cons_self _ _)
    rw [List.foldl_cons, ih _ k (fun u hu => h u (List.mem_cons_of_mem _ hu))]
    by_cases hk : k = a.id
    · simp [UserMap.set, ha, hk]
    · have hk' : a.id ≠ k := fun e => hk e.symm
      simp [UserMap.set, ha, hk, hk']

theorem foldl_set_own_eq_some (users : List User) :
    ∀ (map : UserMap) (k : JSString) (u : User), (∀ u ∈ users, u.id ≠ protoKey) →
      (users.foldl (fun map user => map.set user.id user) map).own k = some u →
        (u ∈ users ∧ u.id = k) ∨ map.own k = some u := by
  induction users with
  | nil => intro map k u _ h; exact Or.inr h
  | cons a l ih =>
    intro map k u hids h
    have ha : a.id ≠ protoKey := hids a (List.mem_cons_self _ _)
    rw [List.foldl_cons] at h
    rcases ih _ k u (fun u hu => hids u (List.mem_cons_of_mem _ hu)) h with ⟨hm, hid⟩ | hset
    · exact Or.inl ⟨List.mem_cons_of_mem _ hm, hid⟩
    · by_cases hk : k = a.id
      · simp [UserMap.set, ha, hk] at hset
        subst hset
        exact Or.inl ⟨List.mem_cons_self _ _, hk.symm⟩
      · simp [UserMap.set, ha, hk] at hset
        exact Or.inr hset

theorem userMap_get_of_plain (users : List User) (k : JSString)
    (hids : ∀ u ∈ users, u.id ≠ protoKey) (hk : plainKey k = true) :
    (userMap users).get k =
      match (userMap users).own k with
      | some u => .user u
      | none => .primitive .undefined := by
  obtain ⟨h1, h2⟩ := (plainKey_iff k).mp hk
  have hproto : (userMap users).proto = none := by
    unfold userMap
    rw [foldl_set_proto users _ hids]
    rfl
  unfold UserMap.get
  rw [if_neg h1, hproto]
  cases (userMap users).own k with
  | some u => rfl
  | none => simp [objectPrototypeGet, h2]

theorem ownerJoined_userMap (users : List User) (post : Post) (key : JSString)
    (hk : post.userid.toStringCall = .ok key)
    (hids : ∀ u ∈ users, u.id ≠ protoKey) (hplain : plainKey key = true) :
    OwnerJoined users post ((userMap users).get key) := by
  rw [userMap_get_of_plain users key hids hplain]
  have hnone := foldl_set_own_eq_none_iff users UserMap.empty key hids
  have hsome := fun u => foldl_set_own_eq_some users UserMap.empty key u hids
  cases hown : (userMap users).own key with
  | none =>
    have hno : ∀ u ∈ users, u.id ≠ key := (hnone.mp hown).2
    constructor
    · constructor
      · intro _ u hu heq
        rw [hk] at heq
        injection heq with heq
        exact hno u hu heq.symm
      · intro _; rfl
    · rintro ⟨u, hu, heq⟩
      rw [hk] at heq
      injection heq with heq
      exact absurd heq.symm (hno u hu)
  | some u =>
    have hu : u ∈ users ∧ u.id = key := by
      rcases hsome u hown with h | h
      · exact h
      · simp [UserMap.empty] at h
    constructor
    · constructor
      · intro h; cases h
      · intro h
        exact absurd (by rw [hk, hu.2]) (h u hu.1)
    · intro _
      exact ⟨u, hu.1, rfl, by rw [hk, hu.2]⟩

theorem wellFormed_iff (post : Post) :
    post.wellFormed = true ↔
      (∃ key, post.userid.toStringCall = .ok key) ∧ ∃ s, post.content = .string s := by
  unfold Post.wellFormed
  cases hk : post.userid.toStringCall <;> cases hc : post.content <;> simp


theorem samplePosts_wellFormed : ∀ p ∈ samplePosts, p.wellFormed = true := by
  intro p hp
  simp only [samplePosts, List.mem_cons, List.mem_singleton, List.not_mem_nil, or_false] at hp
  rcases hp with rfl | rfl | rfl <;> rfl

/-! ### Owner join -/

theorem processPost_of_wellFormed (map : UserMap) (post : Post)
    (h : post.wellFormed = true) :
    ∃ key s, post.userid.toStringCall = .ok key ∧ post.content = .string s ∧
      processPost map post =
        .ok { post := post, user := map.get key, title := titleOf s, body := .string s } := by
  obtain ⟨⟨key, hk⟩, s, hs⟩ := (wellFormed_iff post).mp h
  exact ⟨key, s, hk, hs, by simp [processPost, hk, hs, title]⟩

theorem fetchComments_ok (postId : JSValue) (upstream : Fetched (List Comment)) :
    ∃ comments, fetchComments postId upstream = .ok comments := by
  unfold fetchComments
  cases fetchCommentsTry upstream with
  | ok comments => exact ⟨comments, rfl⟩
  | error e => exact ⟨[], rfl⟩

theorem postWithComments_of_wellFormed (map : UserMap)
    (upstream : Fetched (List Comment)) (post : Post) (h : post.wellFormed = true) :
    ∃ key s comments, post.userid.toStringCall = .ok key ∧ post.content = .string s ∧
      fetchComments post.id upstream = .ok comments ∧
      postWithComments map upstream post =
        .ok { post := post, user := map.get key, title := titleOf s, body := .string s,
              comments := comments, commentCount := comments.length } := by
  obtain ⟨⟨key, hk⟩, s, hs⟩ := (wellFormed_iff post).mp h
  obtain ⟨comments, hc⟩ := fetchComments_ok post.id upstream
  exact ⟨key, s, comments, hk, hs, hc, by simp [postWithComments, hc, hk, hs, title]⟩

theorem processedPosts_of_wellFormed (posts : List Post) (users : List User)
    (h : ∀ p ∈ posts, p.wellFormed = true) :
    ∃ out, processedPosts posts users = .ok out ∧ out.length = posts.length ∧
      ∀ i (h1 : i < out.length) (h2 : i < posts.length),
        processPost (userMap users) posts[i] = .ok out[i] := by
  let g : Nat → Post → FeedPost := fun _ p =>
    match processPost (userMap users) p with
    | .ok r => r
    | .error _ => { post := p, user := .primitive .undefined, title := [], body := p.content }
  have hg : ∀ i (hi : i < posts.length),
      processPost (userMap users) posts[i] = .ok (g i posts[i]) := by
    intro i hi
    obtain ⟨key, s, _, _, hp⟩ :=
      processPost_of_wellFormed (userMap users) posts[i] (h _ (List.getElem_mem hi))
    simp only [g, hp]
  refine ⟨posts.mapIdx g, arrayMap_eq_ok g posts _ hg, List.length_mapIdx, ?_⟩
  intro i h1 h2
  rw [List.getElem_mapIdx]
  exact hg i h2

theorem postsWithComments_of_wellFormed (posts : List Post) (users : List User)
    (commentsUpstream : Nat → Fetched (List Comment))
    (h : ∀ p ∈ posts, p.wellFormed = true) :
    ∃ out, postsWithComments posts users commentsUpstream = .ok out ∧
      out.length = posts.length ∧
      ∀ i (h1 : i < out.length) (h2 : i < posts.length),
        postWithComments (userMap users) (commentsUpstream i) posts[i] = .ok out[i] := by
  let g : Nat → Post → TrendingPost := fun i p =>
    match postWithComments (userMap users) (commentsUpstream i) p with
    | .ok r => r
    | .error _ =>
      { post := p, user := .primitive .undefined, title := [], body := p.content, comments := [],
        commentCount := 0 }
  have hg : ∀ i (hi : i < posts.length),
      postWithComments (userMap users) (commentsUpstream i) posts[i] =
        .ok (g i posts[i]) := by
    intro i hi
    obtain ⟨key, s, comments, _, _, _, hp⟩ :=
      postWithComments_of_wellFormed (userMap users) (commentsUpstream i) posts[i]
        (h _ (List.getElem_mem hi))
    simp only [g, hp]
  refine ⟨posts.mapIdx g, arrayMap_eq_ok g posts _ hg, List.length_mapIdx, ?_⟩
  intro i h1 h2
  rw [List.getElem_mapIdx]
  exact hg i h2

/-- The owner join on keys that name no member of `Object.prototype`: on posts
whose owner id and content can be read, with no user id `__proto__` and no
owner id naming a member of `Object.prototype`, the join of `Feed` and the join
of `TrendingPosts` each produce one record per input post, in the same order; a
record's owner is absent exactly when no user has the post's owner id (as a
string) for id, and otherwise a user of the list with that id. -/
theorem owner_join_of_plain_keys (posts : List Post) (users : List User)
    (commentsUpstream : Nat → Fetched (List Comment))
    (h : ∀ p ∈ posts, p.wellFormed = true)
    (hids : ∀ u ∈ users, u.id ≠ protoKey)
    (hkeys : ∀ p ∈ posts, ∀ key, p.userid.toStringCall = .ok key → plainKey key = true) :
    (∃ out, processedPosts posts users = .ok out ∧ out.length = posts.length ∧
      ∀ i (h1 : i < out.length) (h2 : i < posts.length),
        out[i].post = posts[i] ∧ OwnerJoined users posts[i] out[i].user) ∧
    (∃ out, postsWithComments posts users commentsUpstream = .ok out ∧
      out.length = posts.length ∧
      ∀ i (h1 : i < out.length) (h2 : i < posts.length),
        out[i].post = posts[i] ∧ OwnerJoined users posts[i] out[i].user) := by
  constructor
  · obtain ⟨out, hout, hlen, hrec⟩ := processedPosts_of_wellFormed posts users h
    refine ⟨out, hout, hlen, fun i h1 h2 => ?_⟩
    obtain ⟨key, s, hk, _, hp⟩ :=
      processPost_of_wellFormed (userMap users) posts[i] (h _ (List.getElem_mem h2))
    have heq := (hrec i h1 h2).symm.trans hp
    injection heq with heq
    rw [heq]
    exact ⟨rfl, ownerJoined_userMap users posts[i] key hk hids
      (hkeys _ (List.getElem_mem h2) key hk)⟩
  · obtain ⟨out, hout, hlen, hrec⟩ :=
      postsWithComments_of_wellFormed posts users commentsUpstream h
    refine ⟨out, hout, hlen, fun i h1 h2 => ?_⟩
    obtain ⟨key, s, comments, hk, _, _, hp⟩ :=
      postWithComments_of_wellFormed (userMap users) (commentsUpstream i) posts[i]
        (h _ (List.getElem_mem h2))
    have heq := (hrec i h1 h2).symm.trans hp
    injection heq with heq
    rw [heq]
    exact ⟨rfl, ownerJoined_userMap users posts[i] key hk hids
      (hkeys _ (List.getElem_mem h2) key hk)⟩

/-- The sample posts and users meet the conditions of the owner join on plain
keys, and the join of `Feed` has one record per post. -/
theorem owner_join_of_plain_keys_witness :
    (∀ p ∈ samplePosts, p.wellFormed = true) ∧
    (∀ u ∈ sampleUsers, u.id ≠ protoKey) ∧
    ∃ out, processedPosts samplePosts sampleUsers = .ok out ∧ out.length = 3 := by
  have hids : ∀ u ∈ sampleUsers, u.id ≠ protoKey := by decide
  have hkeys : ∀ p ∈ samplePosts, ∀ key, p.userid.toStringCall = .ok key →
      plainKey key = true := by
    intro p hp key hk
    simp only [samplePosts, List.mem_cons, List.mem_singleton, List.not_mem_nil,
      or_false] at hp
    rcases hp with rfl | rfl | rfl
    · have : key = [49] := by
        have h : Except.ok (ε := JSError) [49] = Except.ok key := hk
        injection h with h
        exact h.symm
      subst this
      decide
    · have : key = [50] := by
        have h : Except.ok (ε := JSError) [50] = Except.ok key := hk
        injection h with h
        exact h.symm
      subst this
      decide
    · have : key = [55] := by
        have h : Except.ok (ε := JSError) [55] = Except.ok key := hk
        injection h with h
        exact h.symm
      subst this
      decide
  obtain ⟨out, hout, hlen, _⟩ := (owner_join_of_plain_keys samplePosts sampleUsers
    sampleComments samplePosts_wellFormed hids hkeys).1
  exact ⟨samplePosts_wellFormed, hids, out, hout, hlen⟩

/-- On the sample data the join of `Feed` attaches user 1 to the first post
(numeric owner id 1), user 2 to the second, and no owner to the third. -/
theorem processedPosts_sample :
    processedPosts samplePosts sampleUsers =
      .ok [{ post := { id := .number (.ofNat 10), userid := .number (.ofNat 1),
                       content := .string [104, 105] },
             user := .user { id := sampleId1, name := .string [65] },
             title := [104, 105], body := .string [104, 105] },
           { post := { id := .number (.ofNat 11), userid := .string [50],
                       content := .string (List.replicate 45 97) },
             user := .user { id := sampleId2, name := .string [66] },
             title := List.replicate 30 97 ++ [46, 46, 46],
             body := .string (List.replicate 45 97) },
           { post := { id := .number (.ofNat 12), userid := .number (.ofNat 7),
                       content := .string [] },
             user := .primitive .undefined, title := [], body := .string [] }] := rfl

/-- C5, at the failing input: with the users `1` and `2` and the one post
`{ id: 1, userid: 'constructor', content: 'x' }`, no user has the post's owner
id, and yet the join of `Feed` and the join of `TrendingPosts` attach an owner:
the read `userMap['constructor']` finds the function `constructor` that the
plain object inherits from `Object.prototype`. The owner is not absent, as the
owner join requires. -/
theorem owner_join_at_constructor :
    postOfConstructor.wellFormed = true ∧
    (∀ u ∈ sampleUsers, postOfConstructor.userid.toStringCall ≠ .ok u.id) ∧
    processedPosts [postOfConstructor] sampleUsers =
      .ok [{ post := postOfConstructor, user := .builtin (ascii "constructor"),
             title := ascii "x", body := .string (ascii "x") }] ∧
    postsWithComments [postOfConstructor] sampleUsers sampleComments =
      .ok [{ post := postOfConstructor, user := .builtin (ascii "constructor"),
             title := ascii "x", body := .string (ascii "x"),
             comments := [{ body := .null }, { body := .null }], commentCount := 2 }] ∧
    ¬ OwnerJoined sampleUsers postOfConstructor (.builtin (ascii "constructor")) := by
  have hno : ∀ u ∈ sampleUsers, postOfConstructor.userid.toStringCall ≠ .ok u.id := by
    intro u hu heq
    have hk : postOfConstructor.userid.toStringCall = .ok (ascii "constructor") := rfl
    rw [hk] at heq
    injection heq with heq
    simp only [sampleUsers, List.mem_cons, List.mem_singleton, List.not_mem_nil,
      or_false] at hu
    rcases hu with rfl | rfl
    · exact absurd heq (by decide)
    · exact absurd heq (by decide)
  refine ⟨rfl, hno, rfl, rfl, ?_⟩
  intro h
  have := h.1.mpr hno
  cases this

/-! ### Top users -/

theorem toStringCall_of_hasToString (v : JSValue) (h : v.hasToString = true) :
    ∃ key, v.toStringCall = .ok key := by
  cases v with
  | undefined => simp [JSValue.hasToString] at h
  | null => simp [JSValue.hasToString] at h
  | boolean b => cases b <;> exact ⟨_, rfl⟩
  | number n => exact ⟨_, rfl⟩
  | string s => exact ⟨_, rfl⟩

theorem toStringCall_error (v : JSValue) (e : JSError) (h : v.toStringCall = .error e) :
    e = .typeError ∧ v.hasToString = false := by
  cases v with
  | undefined => simp [JSValue.toStringCall] at h; exact ⟨h.symm, rfl⟩
  | null => simp [JSValue.toStringCall] at h; exact ⟨h.symm, rfl⟩
  | boolean b => cases b <;> simp [JSValue.toStringCall] at h
  | number n => simp [JSValue.toStringCall] at h
  | string s => simp [JSValue.toStringCall] at h


theorem countPost_ok (counts : CountsObject) (post : Post) (key : JSString)
    (hk : post.userid.toStringCall = .ok key) :
    countPost counts post = .ok
      ((if (counts.get key).falsy then counts.set key (.finite 0) else counts).set key
        ((if (counts.get key).falsy then counts.set key (.finite 0) else counts).get
          key).increment) := by
  simp only [countPost, hk]

theorem countPosts_ok (posts : List Post) :
    ∀ (counts : CountsObject), (∀ p ∈ posts, p.userid.hasToString = true) →
      ∃ counts1, countPosts counts posts = .ok counts1 := by
  induction posts with
  | nil => intro counts _; exact ⟨counts, rfl⟩
  | cons a l ih =>
    intro counts h
    obtain ⟨key, hk⟩ := toStringCall_of_hasToString a.userid (h a (List.mem_cons_self _ _))
    have hc1 := countPost_ok counts a key hk
    obtain ⟨c2, hc2⟩ := ih
      ((if (counts.get key).falsy then counts.set key (.finite 0) else counts).set key
        ((if (counts.get key).falsy then counts.set key (.finite 0) else counts).get
          key).increment)
      (fun p hp => h p (List.mem_cons_of_mem _ hp))
    exact ⟨c2, by simp only [countPosts, hc1, hc2]⟩

theorem userPostCounts_ok (posts : List Post)
    (h : ∀ p ∈ posts, p.userid.hasToString = true) :
    ∃ counts, userPostCounts posts = .ok counts :=
  countPosts_ok posts CountsObject.empty h


theorem countPost_of_plain (counts : CountsObject) (post : Post) (key k : JSString)
    (hk : post.userid.toStringCall = .ok key) (hplain : plainKey k = true)
    (hn : counts.own k ≠ some .nan) :
    ∃ counts1, countPost counts post = .ok counts1 ∧ counts1.own k ≠ some .nan ∧
      counts1.countAt k = counts.countAt k + if ownedBy k post then 1 else 0 := by
  obtain ⟨h1, h2⟩ := (plainKey_iff k).mp hplain
  refine ⟨_, countPost_ok counts post key hk, ?_⟩
  by_cases hkk : key = k
  · subst hkk
    cases hc : counts.own key with
    | none =>
      simp [CountsObject.get, CountsObject.set, CountsObject.countAt, CountValue.falsy,
        CountValue.increment, ownedBy, hk, hc, h1, h2]
    | some v =>
      cases v with
      | nan => exact absurd hc hn
      | finite n =>
        cases n with
        | zero =>
          simp [CountsObject.get, CountsObject.set, CountsObject.countAt, CountValue.falsy,
            CountValue.increment, ownedBy, hk, hc, h1, h2]
        | succ m =>
          simp [CountsObject.get, CountsObject.set, CountsObject.countAt, CountValue.falsy,
            CountValue.increment, ownedBy, hk, hc, h1, h2]
  · have hkk' : ¬ k = key := fun e => hkk e.symm
    have hown : ∀ (c : CountsObject) (v : JSNumber), (c.set key v).own k = c.own k := by
      intro c v
      unfold CountsObject.set
      split
      · rfl
      · simp [hkk']
    have hfalse : ownedBy k post = false := by simp [ownedBy, hk, hkk]
    have hcount : ∀ (c : CountsObject) (v : JSNumber),
        (c.set key v).countAt k = c.countAt k := by
      intro c v
      simp only [CountsObject.countAt, hown]
    by_cases hf : (counts.get key).falsy = true
    · simp only [hf, if_true, hown, hcount, hfalse]
      exact ⟨hn, by simp⟩
    · simp only [hf, hown, hcount, hfalse]
      exact ⟨hn, by simp⟩

theorem countPosts_of_plain (posts : List Post) (k : JSString)
    (hplain : plainKey k = true) :
    ∀ (counts : CountsObject), (∀ p ∈ posts, p.userid.hasToString = true) →
      counts.own k ≠ some .nan →
      ∃ counts1, countPosts counts posts = .ok counts1 ∧ counts1.own k ≠ some .nan ∧
        counts1.countAt k = counts.countAt k + posts.countP (ownedBy k) := by
  induction posts with
  | nil => intro counts _ hn; exact ⟨counts, rfl, hn, by simp⟩
  | cons a l ih =>
    intro counts h hn
    obtain ⟨key, hk⟩ := toStringCall_of_hasToString a.userid (h a (List.mem_cons_self _ _))
    obtain ⟨c1, hc1, hn1, hcount1⟩ := countPost_of_plain counts a key k hk hplain hn
    obtain ⟨c2, hc2, hn2, hcount2⟩ :=
      ih c1 (fun p hp => h p (List.mem_cons_of_mem _ hp)) hn1
    refine ⟨c2, by simp only [countPosts, hc1, hc2], hn2, ?_⟩
    rw [hcount2, hcount1, List.countP_cons]
    omega

theorem postCountOr0_of_plain (counts : CountsObject) (k : JSString)
    (hplain : plainKey k = true) (hn : counts.own k ≠ some .nan) :
    postCountOr0 counts k = .number (counts.countAt k) := by
  obtain ⟨h1, h2⟩ := (plainKey_iff k).mp hplain
  cases hc : counts.own k with
  | none =>
    simp [postCountOr0, CountsObject.get, CountsObject.countAt, CountValue.falsy, hc, h1, h2]
  | some v =>
    cases v with
    | nan => exact absurd hc hn
    | finite n =>
      cases n with
      | zero =>
        simp [postCountOr0, CountsObject.get, CountsObject.countAt, CountValue.falsy, hc, h1]
      | succ m =>
        simp [postCountOr0, CountsObject.get, CountsObject.countAt, CountValue.falsy, hc, h1]

theorem topUsers_of_plain (users : List User) (posts : List Post)
    (h : ∀ p ∈ posts, p.userid.hasToString = true)
    (hplain : ∀ u ∈ users, plainKey u.id = true) :
    topUsers users posts =
      .ok (sortedUsers (users.map
        (fun user => { user := user, postCount := .number (postCountOf posts user) }))) := by
  obtain ⟨counts, hc⟩ := userPostCounts_ok posts h
  have hmap : usersWithPostCounts users counts =
      users.map (fun user =>
        ({ user := user, postCount := .number (postCountOf posts user) } : RankedUser)) := by
    unfold usersWithPostCounts
    apply List.map_congr_left
    intro u hu
    obtain ⟨c1, hc1, hn1, hcount1⟩ := countPosts_of_plain posts u.id (hplain u hu)
      CountsObject.empty h (by simp [CountsObject.empty])
    have hcc : counts = c1 := by
      have := hc.symm.trans hc1
      injection this
    subst hcc
    rw [postCountOr0_of_plain counts u.id (hplain u hu) hn1, hcount1]
    simp [CountsObject.countAt, CountsObject.empty, postCountOf]
  simp only [topUsers, hc, hmap]

theorem byPostCountDesc_iff_of_number (a b : RankedUser) (x y : Nat)
    (ha : a.postCount = .number x) (hb : b.postCount = .number y) :
    byPostCountDesc a b ↔ countDesc a.rank b.rank := by
  simp [byPostCountDesc, mayPrecede, comparePostCount, CountValue.toNumber, countDesc,
    RankedUser.rank, ha, hb]

theorem sorted_insertionSort_of_number (l : List RankedUser)
    (h : ∀ r ∈ l, ∃ n, r.postCount = .number n) :
    (l.insertionSort byPostCountDesc).Pairwise (fun a b => b.rank ≤ a.rank) := by
  have hmap := List.map_insertionSort byPostCountDesc countDesc RankedUser.rank l
    (fun a ha b hb => by
      obtain ⟨x, hx⟩ := h a ha
      obtain ⟨y, hy⟩ := h b hb
      exact byPostCountDesc_iff_of_number a b x y hx hy)
  have hs : List.Sorted countDesc ((l.map RankedUser.rank).insertionSort countDesc) :=
    List.sorted_insertionSort countDesc _
  rw [← hmap] at hs
  exact List.pairwise_map.mp hs

theorem length_sortedUsers (l : List RankedUser) :
    (sortedUsers l).length = min 5 l.length := by
  simp [sortedUsers, List.length_take, List.length_insertionSort]

theorem sortedUsers_append_leftOut (l : List RankedUser) :
    (sortedUsers l ++ leftOut l).Perm l := by
  rw [sortedUsers, leftOut, List.take_append_drop]
  exact List.perm_insertionSort byPostCountDesc l

theorem sortedUsers_of_length_lt (l : List RankedUser) (h : l.length < 5) :
    (sortedUsers l).Perm l := by
  have hlen : (l.insertionSort byPostCountDesc).length ≤ 5 := by
    rw [List.length_insertionSort]; omega
  rw [sortedUsers, List.take_of_length_le hlen]
  exact List.perm_insertionSort byPostCountDesc l

/-- The ranking on user ids that name no member of `Object.prototype`: when
every post has an owner id and no user id names a member of
`Object.prototype`, every ranked user is one of the users and carries the
number of posts whose owner id, converted to a string, is the user's id; the
ranking has `min 5 (number of users)` entries, sorted non-increasing by
`postCount`; with fewer than 5 users it holds every user; and together with
the users it leaves out it is the users, each once, every user left out having
a `postCount` at most that of every ranked user. -/
theorem top_users_of_plain_ids (users : List User) (posts : List Post)
    (h : ∀ p ∈ posts, p.userid.hasToString = true)
    (hplain : ∀ u ∈ users, plainKey u.id = true) :
    ∃ ranked, topUsers users posts = .ok ranked ∧
      (∀ r ∈ ranked, r.user ∈ users ∧ r.postCount = .number (postCountOf posts r.user)) ∧
      ranked.length = min 5 users.length ∧
      ranked.Pairwise (fun a b => b.rank ≤ a.rank) ∧
      (users.length < 5 → (ranked.map (fun r => r.user)).Perm users) ∧
      (ranked ++ leftOut (users.map
          (fun user => { user := user, postCount := .number (postCountOf posts user) }))).Perm
        (users.map
          (fun user => { user := user, postCount := .number (postCountOf posts user) })) ∧
      ∀ a ∈ ranked, ∀ b ∈ leftOut (users.map
          (fun user => { user := user, postCount := .number (postCountOf posts user) })),
        b.rank ≤ a.rank := by
  have hnum : ∀ r ∈ users.map (fun user =>
      ({ user := user, postCount := .number (postCountOf posts user) } : RankedUser)),
      ∃ n, r.postCount = .number n := by
    intro r hr
    obtain ⟨u, _, rfl⟩ := List.mem_map.mp hr
    exact ⟨_, rfl⟩
  have hsorted := sorted_insertionSort_of_number _ hnum
  refine ⟨_, topUsers_of_plain users posts h hplain, ?_, ?_, ?_, ?_,
    sortedUsers_append_leftOut _, ?_⟩
  · intro r hr
    have hmem : r ∈ users.map (fun user =>
        ({ user := user, postCount := .number (postCountOf posts user) } : RankedUser)) :=
      (List.mem_insertionSort byPostCountDesc).mp (List.mem_of_mem_take hr)
    obtain ⟨u, hu, rfl⟩ := List.mem_map.mp hmem
    exact ⟨hu, rfl⟩
  · rw [length_sortedUsers, List.length_map]
  · exact List.Pairwise.sublist (List.take_sublist 5 _) hsorted
  · intro hlt
    have hperm := sortedUsers_of_length_lt
      (users.map (fun user =>
        ({ user := user, postCount := .number (postCountOf posts user) } : RankedUser)))
      (by rw [List.length_map]; exact hlt)
    have hmap := hperm.map (fun r => r.user)
    simpa [List.map_map, Function.comp_def] using hmap
  · rw [← List.take_append_drop 5 (List.insertionSort byPostCountDesc _)] at hsorted
    exact (List.pairwise_append.mp hsorted).2.2

/-- The six sample users and their posts meet the conditions of the ranking on
plain ids, and user 3 is ranked with its three posts. -/
theorem top_users_of_plain_ids_witness :
    (∀ p ∈ sampleOwnedPosts, p.userid.hasToString = true) ∧
    (∀ u ∈ sampleSixUsers, plainKey u.id = true) ∧
    ∃ ranked, topUsers sampleSixUsers sampleOwnedPosts = .ok ranked ∧ ranked.length = 5 ∧
      ∀ r ∈ ranked, r.postCount = .number (postCountOf sampleOwnedPosts r.user) := by
  have hposts : ∀ p ∈ sampleOwnedPosts, p.userid.hasToString = true := by decide
  have hplain : ∀ u ∈ sampleSixUsers, plainKey u.id = true := by decide
  obtain ⟨ranked, hr, hcount, hlen, _⟩ :=
    top_users_of_plain_ids sampleSixUsers sampleOwnedPosts hposts hplain
  exact ⟨hposts, hplain, ranked, hr, hlen, fun r hmem => (hcount r hmem).2⟩

/-- Of six users with 1, 0, 3, 0, 2 and 0 posts, the ranking keeps users 3, 5,
1, 2 and 4, in this order, and leaves out user 6. -/
theorem topUsers_sample :
    topUsers sampleSixUsers sampleOwnedPosts =
      .ok [{ user := sampleUser 3, postCount := .number 3 },
           { user := sampleUser 5, postCount := .number 2 },
           { user := sampleUser 1, postCount := .number 1 },
           { user := sampleUser 2, postCount := .number 0 },
           { user := sampleUser 4, postCount := .number 0 }] := rfl

/-- C2, at the failing input: with the users `1` and `constructor` and the one
post `{ userid: 1 }`, the user `constructor` owns no post, and yet its
`postCount` is not 0: the read `userPostCounts['constructor']` finds the
function `constructor` that the plain object inherits from `Object.prototype`,
which `|| 0` keeps. The comparator returns `NaN` on the two entries, so the
result is not sorted by a number. -/
theorem top_users_ranking_at_constructor :
    postCountOf [samplePostOf 1] (namedUser "constructor" "C") = 0 ∧
    topUsers [namedUser "1" "A", namedUser "constructor" "C"] [samplePostOf 1] =
      .ok [{ user := namedUser "1" "A", postCount := .number 1 },
           { user := namedUser "constructor" "C",
             postCount := .builtin (ascii "constructor") }] ∧
    comparePostCount { user := namedUser "1" "A", postCount := .number 1 }
      { user := namedUser "constructor" "C",
        postCount := .builtin (ascii "constructor") } = none ∧
    comparePostCount
      { user := namedUser "constructor" "C", postCount := .builtin (ascii "constructor") }
      { user := namedUser "1" "A", postCount := .number 1 } = none :=
  ⟨rfl, rfl, rfl, rfl⟩

/-- C3, at the failing input: with the users `a`, `b`, `c`, `d`, `constructor`
and `z`, in this order, and three posts of `z`, the `postCount` of
`constructor` is the function inherited from `Object.prototype`, every
comparison next to it returns `NaN`, the array stays in its order, and
`slice(0, 5)` leaves out `z`, whose `postCount` 3 is above the 0 of the
ranked users `a` to `d`. -/
theorem top_users_are_top_at_constructor :
    topUsers usersWithConstructor [postOwnedBy "z", postOwnedBy "z", postOwnedBy "z"] =
      .ok [{ user := namedUser "a" "A", postCount := .number 0 },
           { user := namedUser "b" "B", postCount := .number 0 },
           { user := namedUser "c" "C", postCount := .number 0 },
           { user := namedUser "d" "D", postCount := .number 0 },
           { user := namedUser "constructor" "E",
             postCount := .builtin (ascii "constructor") }] ∧
    (∃ counts,
      userPostCounts [postOwnedBy "z", postOwnedBy "z", postOwnedBy "z"] = .ok counts ∧
      usersWithPostCounts usersWithConstructor counts =
        [{ user := namedUser "a" "A", postCount := .number 0 },
         { user := namedUser "b" "B", postCount := .number 0 },
         { user := namedUser "c" "C", postCount := .number 0 },
         { user := namedUser "d" "D", postCount := .number 0 },
         { user := namedUser "constructor" "E",
           postCount := .builtin (ascii "constructor") },
         { user := namedUser "z" "Z", postCount := .number 3 }] ∧
      leftOut (usersWithPostCounts usersWithConstructor counts) =
        [{ user := namedUser "z" "Z", postCount := .number 3 }]) ∧
    postCountOf [postOwnedBy "z", postOwnedBy "z", postOwnedBy "z"] (namedUser "z" "Z") = 3 ∧
    postCountOf [postOwnedBy "z", postOwnedBy "z", postOwnedBy "z"] (namedUser "a" "A") = 0 :=
  ⟨rfl, ⟨_, rfl, rfl, rfl⟩, rfl, rfl⟩

/-- C4, at the failing input: with the one user `constructor` and the one post
`{ userid: 'constructor' }`, the user owns one post and is ranked with
`postCount` 0: `!userPostCounts['constructor']` is false on the function
inherited from `Object.prototype`, so the counter is not set to 0, `++` stores
`NaN`, and `|| 0` turns it into 0. With two such posts the count is 1. -/
theorem post_counting_at_constructor :
    postCountOf [postOwnedBy "constructor"] (namedUser "constructor" "C") = 1 ∧
    (∃ counts, userPostCounts [postOwnedBy "constructor"] = .ok counts ∧
      counts.get (ascii "constructor") = .nan) ∧
    topUsers [namedUser "constructor" "C"] [postOwnedBy "constructor"] =
      .ok [{ user := namedUser "constructor" "C", postCount := .number 0 }] ∧
    postCountOf [postOwnedBy "constructor", postOwnedBy "constructor"]
      (namedUser "constructor" "C") = 2 ∧
    topUsers [namedUser "constructor" "C"]
        [postOwnedBy "constructor", postOwnedBy "constructor"] =
      .ok [{ user := namedUser "constructor" "C", postCount := .number 1 }] :=
  ⟨rfl, ⟨_, rfl, rfl⟩, rfl, rfl, rfl⟩

/-! ### Soft failure of comment fetches -/

theorem fetchComments_eq (postId : JSValue) (upstream : Fetched (List Comment)) :
    ∃ comments, fetchComments postId upstream = .ok comments ∧
      comments.length = commentCountOf upstream := by
  cases upstream with
  | rejected => exact ⟨[], rfl, rfl⟩
  | response ok body =>
    cases ok with
    | false => exact ⟨[], rfl, by cases body <;> rfl⟩
    | true =>
      cases body with
      | unparsable => exact ⟨[], rfl, rfl⟩
      | null => exact ⟨[], rfl, rfl⟩
      | parsed field =>
        cases field with
        | none => exact ⟨[], rfl, rfl⟩
        | some comments => exact ⟨comments, rfl, rfl⟩

/-- C8: `fetchComments` never raises and returns as many comments as the
request returned on success, none on a failed fetch; on posts whose owner id
and content can be read, the combined result has one record per input post, in
order, with that `commentCount`; and the record of a post is the same under any
two assignments of outcomes that agree on that post. -/
theorem soft_failure_isolation (posts : List Post) (users : List User)
    (commentsUpstream : Nat → Fetched (List Comment))
    (h : ∀ p ∈ posts, p.wellFormed = true) :
    (∀ postId upstream, ∃ comments, fetchComments postId upstream = .ok comments ∧
      comments.length = commentCountOf upstream) ∧
    (∃ out, postsWithComments posts users commentsUpstream = .ok out ∧
      out.length = posts.length ∧
      (∀ i (h1 : i < out.length) (h2 : i < posts.length),
        out[i].post = posts[i] ∧ out[i].commentCount = commentCountOf (commentsUpstream i)) ∧
      ∀ (other : Nat → Fetched (List Comment)), ∃ out',
        postsWithComments posts users other = .ok out' ∧ out'.length = posts.length ∧
        ∀ j (h1 : j < out.length) (h2 : j < out'.length),
          other j = commentsUpstream j → out'[j] = out[j]) := by
  refine ⟨fetchComments_eq, ?_⟩
  obtain ⟨out, hout, hlen, hrec⟩ :=
    postsWithComments_of_wellFormed posts users commentsUpstream h
  refine ⟨out, hout, hlen, ?_, ?_⟩
  · intro i h1 h2
    obtain ⟨key, s, comments, _, _, hc, hp⟩ :=
      postWithComments_of_wellFormed (userMap users) (commentsUpstream i) posts[i]
        (h _ (List.getElem_mem h2))
    obtain ⟨comments', hc', hcount⟩ := fetchComments_eq posts[i].id (commentsUpstream i)
    have hcs : comments = comments' := by
      have := hc.symm.trans hc'
      injection this
    have heq := (hrec i h1 h2).symm.trans hp
    injection heq with heq
    rw [heq]
    exact ⟨rfl, by rw [hcs]; exact hcount⟩
  · intro other
    obtain ⟨out', hout', hlen', hrec'⟩ :=
      postsWithComments_of_wellFormed posts users other h
    refine ⟨out', hout', hlen', ?_⟩
    intro j h1 h2 hagree
    have hj : j < posts.length := by omega
    have e1 := hrec j h1 hj
    have e2 := hrec' j h2 hj
    rw [hagree] at e2
    have := e2.symm.trans e1
    injection this

/-- On the three sample posts, whose comment requests return two comments, a
transport error and a non-success response, the combined result has the counts
2, 0 and 0. -/
theorem soft_failure_isolation_witness :
    (∀ p ∈ samplePosts, p.wellFormed = true) ∧
    ∃ out, postsWithComments samplePosts sampleUsers sampleComments = .ok out ∧
      out.length = 3 ∧ out.map (fun r => r.commentCount) = [2, 0, 0] := by
  have hwf : ∀ p ∈ samplePosts, p.wellFormed = true := samplePosts_wellFormed
  obtain ⟨out, hout, hlen, _, _⟩ :=
    (soft_failure_isolation samplePosts sampleUsers sampleComments hwf).2
  refine ⟨hwf, out, hout, hlen, ?_⟩
  have hval : (postsWithComments samplePosts sampleUsers sampleComments).map
      (fun l => l.map (fun r => r.commentCount)) = .ok [2, 0, 0] := rfl
  rw [hout] at hval
  injection hval

/-! ### Per-user degradation in fetchPosts -/

theorem userPosts_eq_postsOrEmpty (upstream : Fetched (List Post)) :
    userPosts upstream = postsOrEmpty upstream := by
  cases upstream with
  | rejected => rfl
  | response ok body =>
    cases body with
    | unparsable => rfl
    | null => rfl
    | parsed field => cases field <;> rfl

theorem fetchPosts_miss (cache : Cache) (now usersNow : Int)
    (usersUpstream : Fetched (List (JSString × JSValue))) (usersDone : Int)
    (postsUpstream : Nat → Fetched (List Post)) (done : Int) (users : List User)
    (hmiss : isCacheValid cache .posts now = false ∨ cache.posts = none)
    (husers : (fetchUsers cache usersNow usersUpstream usersDone).result = .ok users) :
    fetchPosts cache now usersNow usersUpstream usersDone postsUpstream done =
      { result := .ok (users.mapIdx (fun i _ => postsOrEmpty (postsUpstream i))).flatten
        cache := { (fetchUsers cache usersNow usersUpstream usersDone).cache with
          posts := some (users.mapIdx (fun i _ => postsOrEmpty (postsUpstream i))).flatten,
          lastFetchTimePosts := some done }
        requests := (fetchUsers cache usersNow usersUpstream usersDone).requests ++
          users.map (fun user => Request.userPosts user.id) } := by
  have hfun : (fun (i : Nat) (_ : User) => userPosts (postsUpstream i)) =
      fun i _ => postsOrEmpty (postsUpstream i) := by
    funext i _
    exact userPosts_eq_postsOrEmpty _
  unfold fetchPosts
  rcases hmiss with hv | hn
  · rw [hv]
    simp only [husers, hfun]
  · rw [hn]
    cases isCacheValid cache .posts now <;> simp only [husers, hfun]

/-- C9: when the posts entry of the cache is not served and the inner
`fetchUsers()` returns the users, `fetchPosts` does not fail: it returns the
concatenation, in user order, of each user's posts as returned, with the empty
sequence for each user whose fetch failed or whose body has no posts field; it
stores that value in the cache with the completion time, and issues one post
request per user. -/
theorem per_user_degradation (cache : Cache) (now usersNow : Int)
    (usersUpstream : Fetched (List (JSString × JSValue))) (usersDone : Int)
    (postsUpstream : Nat → Fetched (List Post)) (done : Int) (users : List User)
    (hmiss : isCacheValid cache .posts now = false ∨ cache.posts = none)
    (husers : (fetchUsers cache usersNow usersUpstream usersDone).result = .ok users) :
    (fetchPosts cache now usersNow usersUpstream usersDone postsUpstream done).result =
      .ok (users.mapIdx (fun i _ => postsOrEmpty (postsUpstream i))).flatten ∧
    (fetchPosts cache now usersNow usersUpstream usersDone postsUpstream done).cache.posts =
      some (users.mapIdx (fun i _ => postsOrEmpty (postsUpstream i))).flatten ∧
    (fetchPosts cache now usersNow usersUpstream usersDone postsUpstream done).cache.lastFetchTimePosts =
      some done ∧
    (fetchPosts cache now usersNow usersUpstream usersDone postsUpstream done).requests =
      (fetchUsers cache usersNow usersUpstream usersDone).requests ++
        users.map (fun user => Request.userPosts user.id) := by
  rw [fetchPosts_miss cache now usersNow usersUpstream usersDone postsUpstream done users
    hmiss husers]
  exact ⟨rfl, rfl, rfl, rfl⟩

/-- From the empty cache, with two users of which the first has two posts and
the second's request fails, `fetchPosts` returns the two posts. -/
theorem per_user_degradation_witness :
    (fetchPosts Cache.initial 1000 1000 (.response true (.parsed (some sampleEntries)))
      1100 samplePostsUpstream 1200).result = .ok [samplePostOf 1, samplePostOf 1] := by
  have h := (per_user_degradation Cache.initial 1000 1000
    (.response true (.parsed (some sampleEntries))) 1100 samplePostsUpstream 1200
    sampleUsers (Or.inl rfl) rfl).1
  rw [h]
  rfl

/-! ### Cache freshness -/

theorem isCacheValid_iff (cache : Cache) (type : CacheType) (now : Int) :
    isCacheValid cache type now = true ↔
      ∃ t, cache.lastFetchTime type = some t ∧ t ≠ 0 ∧ now - t < 5000 := by
  unfold isCacheValid
  cases h : cache.lastFetchTime type with
  | none => simp
  | some t =>
    by_cases h0 : t = 0
    · simp [h0]
    · simp [h0]

theorem fetchUsers_success (cache : Cache) (now : Int) (ok : Bool)
    (entries : List (JSString × JSValue)) (done : Int)
    (hmiss : isCacheValid cache .users now = false ∨ cache.users = none) :
    fetchUsers cache now (.response ok (.parsed (some entries))) done =
      { result := .ok (entries.map (fun e => { id := e.1, name := e.2 }))
        cache := { cache with
          users := some (entries.map (fun e => { id := e.1, name := e.2 })),
          lastFetchTimeUsers := some done }
        requests := [.users] } := by
  unfold fetchUsers
  rcases hmiss with hv | hn
  · rw [hv]
  · rw [hn]
    cases isCacheValid cache .users now <;> rfl

theorem fetchUsers_fresh (cache : Cache) (users : List User) (t0 now : Int)
    (upstream : Fetched (List (JSString × JSValue))) (done : Int)
    (hu : cache.users = some users) (ht : cache.lastFetchTimeUsers = some t0)
    (h0 : t0 ≠ 0) (hfresh : now - t0 < 5000) :
    fetchUsers cache now upstream done =
      { result := .ok users, cache := cache, requests := [] } := by
  have hv : isCacheValid cache .users now = true :=
    (isCacheValid_iff cache .users now).mpr ⟨t0, ht, h0, hfresh⟩
  unfold fetchUsers
  rw [hv, hu]

theorem fetchUsers_stale (cache : Cache) (t0 now : Int)
    (upstream : Fetched (List (JSString × JSValue))) (done : Int)
    (ht : cache.lastFetchTimeUsers = some t0) (hstale : 5000 ≤ now - t0) :
    (fetchUsers cache now upstream done).requests = [.users] := by
  have hv : isCacheValid cache .users now = false := by
    cases hb : isCacheValid cache .users now with
    | false => rfl
    | true =>
      obtain ⟨t, ht', _, hlt⟩ := (isCacheValid_iff cache .users now).mp hb
      have : t = t0 := by
        have := ht'.symm.trans ht
        injection this
      omega
  unfold fetchUsers
  rw [hv]
  cases upstream with
  | rejected => rfl
  | response ok body =>
    cases body with
    | unparsable => rfl
    | null => rfl
    | parsed field => cases field <;> rfl

theorem fetchPosts_fresh (cache : Cache) (posts : List Post) (t0 now usersNow : Int)
    (usersUpstream : Fetched (List (JSString × JSValue))) (usersDone : Int)
    (postsUpstream : Nat → Fetched (List Post)) (done : Int)
    (hp : cache.posts = some posts) (ht : cache.lastFetchTimePosts = some t0)
    (h0 : t0 ≠ 0) (hfresh : now - t0 < 5000) :
    fetchPosts cache now usersNow usersUpstream usersDone postsUpstream done =
      { result := .ok posts, cache := cache, requests := [] } := by
  have hv : isCacheValid cache .posts now = true :=
    (isCacheValid_iff cache .posts now).mpr ⟨t0, ht, h0, hfresh⟩
  unfold fetchPosts
  rw [hv, hp]

theorem fetchPosts_stale (cache : Cache) (t0 now usersNow : Int)
    (usersUpstream : Fetched (List (JSString × JSValue))) (usersDone : Int)
    (postsUpstream : Nat → Fetched (List Post)) (done : Int)
    (ht : cache.lastFetchTimePosts = some t0) (hstale : 5000 ≤ now - t0) :
    (fetchPosts cache now usersNow usersUpstream usersDone postsUpstream done).requests =
      (fetchUsers cache usersNow usersUpstream usersDone).requests ++
        match (fetchUsers cache usersNow usersUpstream usersDone).result with
        | .ok users => users.map (fun user => Request.userPosts user.id)
        | .error _ => [] := by
  have hv : isCacheValid cache .posts now = false := by
    cases hb : isCacheValid cache .posts now with
    | false => rfl
    | true =>
      obtain ⟨t, ht', _, hlt⟩ := (isCacheValid_iff cache .posts now).mp hb
      have : t = t0 := by
        have := ht'.symm.trans ht
        injection this
      omega
  unfold fetchPosts
  rw [hv]
  cases hr : (fetchUsers cache usersNow usersUpstream usersDone).result with
  | error e => simp only [hr, List.append_nil]
  | ok users => simp only [hr]

/-- C7, as the code has it. A `fetchUsers()` call that goes upstream and
succeeds, completing at a nonzero clock reading `t0`, returns the processed
users after one upstream request; from then on every call at a time `t` with
`t - t0 < 5000` returns that same value, leaves the cache as it is and issues
no request, every call with `t - t0 >= 5000` issues a new request, and the
entry is fresh exactly when `now - t0 < 5000`. For `fetchPosts()` completing at
a nonzero `t0` likewise a call with `t - t0 < 5000` returns the stored value
without any request, and a call with `t - t0 >= 5000` does not serve the entry:
it issues the requests of its inner `fetchUsers()` call and one post request
per user that call returns. -/
theorem cache_freshness (cache : Cache) (t0 : Int) (h0 : t0 ≠ 0) :
    (∀ (now : Int) (ok : Bool) (entries : List (JSString × JSValue)),
      (isCacheValid cache .users now = false ∨ cache.users = none) →
      (fetchUsers cache now (.response ok (.parsed (some entries))) t0).result =
        .ok (entries.map (fun e => { id := e.1, name := e.2 })) ∧
      (fetchUsers cache now (.response ok (.parsed (some entries))) t0).requests =
        [.users] ∧
      (∀ (t : Int) (upstream : Fetched (List (JSString × JSValue))) (done : Int),
        t - t0 < 5000 →
        fetchUsers (fetchUsers cache now (.response ok (.parsed (some entries))) t0).cache
            t upstream done =
          { result := .ok (entries.map (fun e => { id := e.1, name := e.2 }))
            cache := (fetchUsers cache now (.response ok (.parsed (some entries))) t0).cache
            requests := [] }) ∧
      (∀ (t : Int) (upstream : Fetched (List (JSString × JSValue))) (done : Int),
        5000 ≤ t - t0 →
        (fetchUsers (fetchUsers cache now (.response ok (.parsed (some entries))) t0).cache
            t upstream done).requests = [.users]) ∧
      (∀ t : Int,
        isCacheValid (fetchUsers cache now (.response ok (.parsed (some entries))) t0).cache
            .users t = true ↔ t - t0 < 5000)) ∧
    (∀ (now usersNow : Int) (usersUpstream : Fetched (List (JSString × JSValue)))
      (usersDone : Int) (postsUpstream : Nat → Fetched (List Post)) (users : List User),
      (isCacheValid cache .posts now = false ∨ cache.posts = none) →
      (fetchUsers cache usersNow usersUpstream usersDone).result = .ok users →
      (∀ (t uNow : Int) (uUp : Fetched (List (JSString × JSValue))) (uDone : Int)
        (pUp : Nat → Fetched (List Post)) (done : Int), t - t0 < 5000 →
        fetchPosts
            (fetchPosts cache now usersNow usersUpstream usersDone postsUpstream t0).cache
            t uNow uUp uDone pUp done =
          { result :=
              (fetchPosts cache now usersNow usersUpstream usersDone postsUpstream t0).result
            cache :=
              (fetchPosts cache now usersNow usersUpstream usersDone postsUpstream t0).cache
            requests := [] }) ∧
      (∀ (t uNow : Int) (uUp : Fetched (List (JSString × JSValue))) (uDone : Int)
        (pUp : Nat → Fetched (List Post)) (done : Int), 5000 ≤ t - t0 →
        (fetchPosts
            (fetchPosts cache now usersNow usersUpstream usersDone postsUpstream t0).cache
            t uNow uUp uDone pUp done).requests =
          (fetchUsers
            (fetchPosts cache now usersNow usersUpstream usersDone postsUpstream t0).cache
            uNow uUp uDone).requests ++
          match (fetchUsers
            (fetchPosts cache now usersNow usersUpstream usersDone postsUpstream t0).cache
            uNow uUp uDone).result with
          | .ok us => us.map (fun user => Request.userPosts user.id)
          | .error _ => []) ∧
      (∀ t : Int,
        isCacheValid
            (fetchPosts cache now usersNow usersUpstream usersDone postsUpstream t0).cache
            .posts t = true ↔ t - t0 < 5000)) := by
  constructor
  · intro now ok entries hmiss
    rw [fetchUsers_success cache now ok entries t0 hmiss]
    refine ⟨rfl, rfl, ?_, ?_, ?_⟩
    · intro t upstream done hlt
      exact fetchUsers_fresh _ _ t0 t upstream done rfl rfl h0 hlt
    · intro t upstream done hge
      exact fetchUsers_stale _ t0 t upstream done rfl hge
    · intro t
      rw [isCacheValid_iff]
      constructor
      · rintro ⟨t', ht', _, hlt⟩
        have : t0 = t' := by
          have h : some t0 = some t' := ht'
          injection h
        omega
      · intro hlt
        exact ⟨t0, rfl, h0, hlt⟩
  · intro now usersNow usersUpstream usersDone postsUpstream users hmiss husers
    have hval := fetchPosts_miss cache now usersNow usersUpstream usersDone postsUpstream
      t0 users hmiss husers
    have hres := congrArg Run.result hval
    have hposts := congrArg (fun r => r.cache.posts) hval
    have htime := congrArg (fun r => r.cache.lastFetchTimePosts) hval
    simp only at hres hposts htime
    refine ⟨?_, ?_, ?_⟩
    · intro t uNow uUp uDone pUp done hlt
      rw [hres]
      exact fetchPosts_fresh _ _ t0 t uNow uUp uDone pUp done hposts htime h0 hlt
    · intro t uNow uUp uDone pUp done hge
      exact fetchPosts_stale _ t0 t uNow uUp uDone pUp done htime hge
    · intro t
      rw [isCacheValid_iff]
      constructor
      · rintro ⟨t', ht', _, hlt⟩
        have : t0 = t' := by
          have h : some t0 = some t' := htime.symm.trans ht'
          injection h
        omega
      · intro hlt
        exact ⟨t0, htime, h0, hlt⟩

/-- From the empty cache a fetch of the two sample users completing at clock
1100 is served again at clock 6099 without a request, and refetched at clock
6100. -/
theorem cache_freshness_witness :
    (1100 : Int) ≠ 0 ∧
    (fetchUsers
      (fetchUsers Cache.initial 1000 (.response true (.parsed (some sampleEntries))) 1100).cache
      6099 .rejected 6099).result = .ok sampleUsers ∧
    (fetchUsers
      (fetchUsers Cache.initial 1000 (.response true (.parsed (some sampleEntries))) 1100).cache
      6099 .rejected 6099).requests = [] ∧
    (fetchUsers
      (fetchUsers Cache.initial 1000 (.response true (.parsed (some sampleEntries))) 1100).cache
      6100 .rejected 6100).requests = [.users] := by
  have h := (cache_freshness Cache.initial 1100 (by decide)).1 1000 true sampleEntries
    (Or.inl rfl)
  obtain ⟨_, _, hfresh, hstale, _⟩ := h
  refine ⟨by decide, ?_, ?_, hstale 6100 .rejected 6100 (by decide)⟩
  · rw [hfresh 6099 .rejected 6099 (by decide)]
    rfl
  · rw [hfresh 6099 .rejected 6099 (by decide)]

/-- C7, as stated, fails at two inputs. A fetch of the users that completes
when the clock reads 0 stores its value with fetch time 0; at clock 1, with
`1 - 0 < 5000`, `isCacheValid` answers false and `fetchUsers` issues a new
request instead of serving the stored value. And with no users upstream, after
`fetchPosts` completing at 1100 and a later `fetchUsers` completing at 6300, a
`fetchPosts` call at 6400 has `6400 - 1100 >= 5000` and issues no upstream
request at all. -/
theorem cache_freshness_counterexample :
    ((fetchUsers Cache.initial 0 (.response true (.parsed (some sampleEntries))) 0).result =
        .ok sampleUsers ∧
      (fetchUsers Cache.initial 0 (.response true (.parsed (some sampleEntries))) 0).cache =
        { users := some sampleUsers, posts := none, lastFetchTimeUsers := some 0,
          lastFetchTimePosts := none } ∧
      (1 : Int) - 0 < 5000 ∧
      isCacheValid
        (fetchUsers Cache.initial 0 (.response true (.parsed (some sampleEntries))) 0).cache
        .users 1 = false ∧
      (fetchUsers
        (fetchUsers Cache.initial 0 (.response true (.parsed (some sampleEntries))) 0).cache
        1 .rejected 1).requests = [.users] ∧
      (fetchUsers
        (fetchUsers Cache.initial 0 (.response true (.parsed (some sampleEntries))) 0).cache
        1 .rejected 1).result = .error .networkError) ∧
    ((fetchPosts Cache.initial 1000 1000 (.response true (.parsed (some []))) 1100
        (fun _ => .rejected) 1100).cache = cacheAfterPosts ∧
      (fetchUsers cacheAfterPosts 6100 (.response true (.parsed (some []))) 6300).cache =
        cacheAfterUsers ∧
      cacheAfterUsers.lastFetchTimePosts = some 1100 ∧
      (5000 : Int) ≤ 6400 - 1100 ∧
      (fetchPosts cacheAfterUsers 6400 6400 .rejected 6400 (fun _ => .rejected) 6400).requests =
        [] ∧
      (fetchPosts cacheAfterUsers 6400 6400 .rejected 6400 (fun _ => .rejected) 6400).result =
        .ok []) :=
  ⟨⟨rfl, rfl, by decide, rfl, rfl, rfl⟩, ⟨rfl, rfl, rfl, by decide, rfl, rfl⟩⟩

/-! ### Malformed upstream data -/

theorem title_error (v : JSValue) (e : JSError) (h : title v = .error e) :
    e = .typeError := by
  cases v <;> simp [title] at h <;> exact h.symm

theorem processPost_error (map : UserMap) (post : Post) (e : JSError)
    (h : processPost map post = .error e) : e = .typeError := by
  unfold processPost at h
  cases hk : post.userid.toStringCall with
  | error e1 =>
    rw [hk] at h
    injection h with h
    exact h ▸ (toStringCall_error _ _ hk).1
  | ok key =>
    rw [hk] at h
    cases ht : title post.content with
    | error e2 =>
      rw [ht] at h
      injection h with h
      exact h ▸ title_error _ _ ht
    | ok t => rw [ht] at h; cases h

theorem postWithComments_error (map : UserMap) (upstream : Fetched (List Comment))
    (post : Post) (e : JSError) (h : postWithComments map upstream post = .error e) :
    e = .typeError := by
  obtain ⟨comments, hc⟩ := fetchComments_ok post.id upstream
  unfold postWithComments at h
  rw [hc] at h
  cases hk : post.userid.toStringCall with
  | error e1 =>
    rw [hk] at h
    injection h with h
    exact h ▸ (toStringCall_error _ _ hk).1
  | ok key =>
    rw [hk] at h
    cases ht : title post.content with
    | error e2 =>
      rw [ht] at h
      injection h with h
      exact h ▸ title_error _ _ ht
    | ok t => rw [ht] at h; cases h

theorem processPost_of_not_wellFormed (map : UserMap) (post : Post)
    (h : post.wellFormed = false) : ∃ e, processPost map post = .error e := by
  unfold Post.wellFormed at h
  unfold processPost
  cases hk : post.userid.toStringCall with
  | error e1 => exact ⟨e1, rfl⟩
  | ok key =>
    rw [hk] at h
    cases hc : post.content <;> rw [hc] at h <;> simp [title] at h ⊢

theorem postWithComments_of_not_wellFormed (map : UserMap)
    (upstream : Fetched (List Comment)) (post : Post) (h : post.wellFormed = false) :
    ∃ e, postWithComments map upstream post = .error e := by
  obtain ⟨comments, hcm⟩ := fetchComments_ok post.id upstream
  unfold Post.wellFormed at h
  unfold postWithComments
  rw [hcm]
  cases hk : post.userid.toStringCall with
  | error e1 => exact ⟨e1, rfl⟩
  | ok key =>
    rw [hk] at h
    cases hc : post.content <;> rw [hc] at h <;> simp [title] at h ⊢

theorem countPosts_error (posts : List Post) :
    ∀ (counts : CountsObject), (∃ p ∈ posts, p.userid.hasToString = false) →
      countPosts counts posts = .error .typeError := by
  induction posts with
  | nil => rintro counts ⟨p, hp, _⟩; cases hp
  | cons a l ih =>
    rintro counts ⟨p, hp, hno⟩
    cases hk : a.userid.toStringCall with
    | error e =>
      have he := (toStringCall_error _ _ hk).1
      subst he
      simp only [countPosts, countPost, hk]
    | ok key =>
      have hc1 := countPost_ok counts a key hk
      have hp' : p ∈ l := by
        rcases List.mem_cons.mp hp with rfl | hp'
        · obtain ⟨k, hk'⟩ : ∃ k, p.userid.toStringCall = .ok k := ⟨key, hk⟩
          cases hv : p.userid <;> rw [hv] at hno hk' <;>
            simp [JSValue.hasToString, JSValue.toStringCall] at hno hk'
        · exact hp'
      simp only [countPosts, hc1]
      exact ih _ ⟨p, hp', hno⟩

theorem processedPosts_error (posts : List Post) (users : List User)
    (h : ∃ p ∈ posts, p.wellFormed = false) :
    processedPosts posts users = .error .typeError := by
  obtain ⟨p, hp, hno⟩ := h
  obtain ⟨i, hi, rfl⟩ := List.getElem_of_mem hp
  obtain ⟨e, he⟩ := processPost_of_not_wellFormed (userMap users) posts[i] hno
  exact arrayMap_eq_error .typeError posts _
    (fun _ a e' h' => processPost_error (userMap users) a e' h') ⟨i, hi, e, he⟩

theorem postsWithComments_error (posts : List Post) (users : List User)
    (commentsUpstream : Nat → Fetched (List Comment))
    (h : ∃ p ∈ posts, p.wellFormed = false) :
    postsWithComments posts users commentsUpstream = .error .typeError := by
  obtain ⟨p, hp, hno⟩ := h
  obtain ⟨i, hi, rfl⟩ := List.getElem_of_mem hp
  obtain ⟨e, he⟩ :=
    postWithComments_of_not_wellFormed (userMap users) (commentsUpstream i) posts[i] hno
  exact arrayMap_eq_error .typeError posts _
    (fun j a e' h' => postWithComments_error (userMap users) (commentsUpstream j) a e' h')
    ⟨i, hi, e, he⟩

/-- C10, as the code has it: a post whose content or owner id is missing is
not readable by the join, and a post whose owner id is missing is not readable
by the post count. When every post is readable the join of `Feed`, the join of
`TrendingPosts` and the post count complete, with one record per post; as soon
as one post is not, the join (for the post count: the count and the ranking)
raises a `TypeError`, and nothing is defaulted. -/
theorem malformed_posts (posts : List Post) (users : List User)
    (commentsUpstream : Nat → Fetched (List Comment)) :
    (∀ p : Post, (p.content = .undefined ∨ p.content = .null ∨ p.userid = .undefined ∨
        p.userid = .null) → p.wellFormed = false) ∧
    (∀ p : Post, (p.userid = .undefined ∨ p.userid = .null) → p.userid.hasToString = false) ∧
    ((∀ p ∈ posts, p.wellFormed = true) →
      (∃ out, processedPosts posts users = .ok out ∧ out.length = posts.length) ∧
      (∃ out, postsWithComments posts users commentsUpstream = .ok out ∧
        out.length = posts.length)) ∧
    ((∃ p ∈ posts, p.wellFormed = false) →
      processedPosts posts users = .error .typeError ∧
      postsWithComments posts users commentsUpstream = .error .typeError) ∧
    ((∀ p ∈ posts, p.userid.hasToString = true) →
      (∃ counts, userPostCounts posts = .ok counts) ∧
      ∃ ranked, topUsers users posts = .ok ranked) ∧
    ((∃ p ∈ posts, p.userid.hasToString = false) →
      userPostCounts posts = .error .typeError ∧
      topUsers users posts = .error .typeError) := by
  refine ⟨?_, ?_, ?_, ?_, ?_, ?_⟩
  · intro p hp
    unfold Post.wellFormed
    rcases hp with h | h | h | h
    · rw [h]; cases p.userid.toStringCall <;> rfl
    · rw [h]; cases p.userid.toStringCall <;> rfl
    · rw [h]; rfl
    · rw [h]; rfl
  · intro p hp
    rcases hp with h | h <;> rw [h] <;> rfl
  · intro h
    obtain ⟨out, hout, hlen, _⟩ := processedPosts_of_wellFormed posts users h
    obtain ⟨out', hout', hlen', _⟩ :=
      postsWithComments_of_wellFormed posts users commentsUpstream h
    exact ⟨⟨out, hout, hlen⟩, ⟨out', hout', hlen'⟩⟩
  · intro h
    exact ⟨processedPosts_error posts users h,
      postsWithComments_error posts users commentsUpstream h⟩
  · intro h
    obtain ⟨counts, hc⟩ := userPostCounts_ok posts h
    exact ⟨⟨counts, hc⟩,
      ⟨sortedUsers (usersWithPostCounts users counts), by simp only [topUsers, hc]⟩⟩
  · intro h
    have hc : userPostCounts posts = .error .typeError :=
      countPosts_error posts CountsObject.empty h
    exact ⟨hc, by simp only [topUsers, hc]⟩

/-- A feed of the three sample posts followed by a post without content makes
the join raise; the three sample posts alone are joined. -/
theorem malformed_posts_witness :
    processedPosts (samplePosts ++ [postWithoutContent]) sampleUsers = .error .typeError ∧
    ∃ out, processedPosts samplePosts sampleUsers = .ok out ∧ out.length = 3 := by
  have h := malformed_posts (samplePosts ++ [postWithoutContent]) sampleUsers sampleComments
  have h' := malformed_posts samplePosts sampleUsers sampleComments
  refine ⟨(h.2.2.2.1 ⟨postWithoutContent, by simp, rfl⟩).1, ?_⟩
  obtain ⟨out, hout, hlen⟩ := (h'.2.2.1 samplePosts_wellFormed).1
  exact ⟨out, hout, hlen⟩

/-- C10, as stated, fails: on a post without content, and on a post without
owner id, the join of `Feed` and of `TrendingPosts` raises a `TypeError` where
the claim has it complete with an empty title and body, or with no owner; and
on a post without owner id the post count raises as well. -/
theorem malformed_posts_counterexample :
    processedPosts [postWithoutContent] sampleUsers = .error .typeError ∧
    processedPosts [postWithoutOwner] sampleUsers = .error .typeError ∧
    postsWithComments [postWithoutContent] sampleUsers sampleComments = .error .typeError ∧
    postsWithComments [postWithoutOwner] sampleUsers sampleComments = .error .typeError ∧
    userPostCounts [postWithoutOwner] = .error .typeError ∧
    topUsers sampleUsers [postWithoutOwner] = .error .typeError ∧
    (¬ ∃ out, processedPosts [postWithoutContent] sampleUsers = .ok out) ∧
    (¬ ∃ counts, userPostCounts [postWithoutOwner] = .ok counts) := by
  refine ⟨rfl, rfl, rfl, rfl, rfl, rfl, ?_, ?_⟩
  · rintro ⟨out, h⟩
    have h' : processedPosts [postWithoutContent] sampleUsers = .error .typeError := rfl
    rw [h'] at h
    cases h
  · rintro ⟨counts, h⟩
    have h' : userPostCounts [postWithoutOwner] = .error .typeError := rfl
    rw [h'] at h
    cases h

/-! ### Title derivation -/

theorem titleOf_short (s : JSString) (h : s.length ≤ 30) : titleOf s = s := by
  have h1 : ¬ s.length > 30 := by omega
  simp [titleOf, substring, h1, List.take_of_length_le h]

theorem titleOf_long (s : JSString) (h : 30 < s.length) :
    titleOf s = s.take 30 ++ ellipsis := by
  simp [titleOf, substring, h]

theorem length_titleOf_long (s : JSString) (h : 30 < s.length) :
    (titleOf s).length = 33 := by
  rw [titleOf_long s h]
  simp [ellipsis, List.length_take]
  omega

/-- C6: in the join of `Feed` and of `TrendingPosts`, a content string of at
most 30 code units is its own title, a longer one gets the title made of its
first 30 code units followed by `'...'` (33 code units), and in both cases the
body is the content unchanged. -/
theorem title_derivation (s : JSString) :
    (s.length ≤ 30 → titleOf s = s) ∧
    (30 < s.length → titleOf s = s.take 30 ++ ellipsis ∧ (titleOf s).length = 33) ∧
    (∀ (map : UserMap) (post : Post) (key : JSString),
      post.content = .string s → post.userid.toStringCall = .ok key →
      processPost map post =
        .ok { post := post, user := map.get key, title := titleOf s, body := .string s }) ∧
    (∀ (map : UserMap) (upstream : Fetched (List Comment)) (post : Post)
      (key : JSString),
      post.content = .string s → post.userid.toStringCall = .ok key →
      ∃ comments, fetchComments post.id upstream = .ok comments ∧
        postWithComments map upstream post =
          .ok { post := post, user := map.get key, title := titleOf s, body := .string s,
                comments := comments, commentCount := comments.length }) := by
  refine ⟨titleOf_short s, fun h => ⟨titleOf_long s h, length_titleOf_long s h⟩, ?_, ?_⟩
  · intro map post key hc hk
    simp [processPost, hk, hc, title]
  · intro map upstream post key hc hk
    cases hf : fetchCommentsTry upstream with
    | ok comments =>
      exact ⟨comments, by simp [fetchComments, hf],
        by simp [postWithComments, fetchComments, hf, hk, hc, title]⟩
    | error e =>
      exact ⟨[], by simp [fetchComments, hf],
        by simp [postWithComments, fetchComments, hf, hk, hc, title]⟩

/-- A content string of 45 code units gets a title of 33: its first 30 code
units and the ellipsis. -/
theorem title_derivation_witness :
    titleOf (List.replicate 45 97) = List.replicate 30 97 ++ [46, 46, 46] ∧
    (titleOf (List.replicate 45 97)).length = 33 := by
  have h := (title_derivation (List.replicate 45 97)).2.1 (by decide)
  exact ⟨by decide, h.2⟩

/-! ### Trending posts -/

theorem le_maxCount (l : List TrendingPost) :
    ∀ p ∈ l, p.commentCount ≤ maxCount l := by
  induction l with
  | nil => intro p hp; cases hp
  | cons a l ih =>
    intro p hp
    have hcons : maxCount (a :: l) = max a.commentCount (maxCount l) := rfl
    rw [hcons]
    rcases List.mem_cons.mp hp with rfl | hp
    · exact le_max_left _ _
    · exact le_trans (ih p hp) (le_max_right _ _)

theorem exists_eq_maxCount (l : List TrendingPost) (hl : l ≠ []) :
    ∃ p ∈ l, p.commentCount = maxCount l := by
  induction l with
  | nil => exact absurd rfl hl
  | cons a l ih =>
    have hcons : maxCount (a :: l) = max a.commentCount (maxCount l) := rfl
    by_cases hle : maxCount l ≤ a.commentCount
    · exact ⟨a, List.mem_cons_self _ _, by rw [hcons, max_eq_left hle]⟩
    · have hlt : a.commentCount < maxCount l := Nat.lt_of_not_le hle
      have hne : l ≠ [] := by
        rintro rfl
        simp [maxCount] at hlt
      obtain ⟨p, hp, hpe⟩ := ih hne
      exact ⟨p, List.mem_cons_of_mem _ hp, by rw [hcons, max_eq_right hlt.le, hpe]⟩

theorem trending_of_pos (l : List TrendingPost) (h : 0 < maxCount l) :
    trending l = l.filter (fun p => decide (p.commentCount = maxCount l)) := by
  simp [trending, h]

theorem trending_of_zero (l : List TrendingPost) (h : maxCount l = 0) :
    trending l = [] := by
  simp [trending, h]

/-- C1: `maxCount` is the maximum comment count of the list (0 for the empty
list); the trending set is the posts, in input order, whose count equals
`maxCount` when `maxCount > 0`, and is empty when `maxCount = 0`. Counts
`[0,0,0]` give the empty set and 0; counts `[2,5,5,1]` give the two posts with
count 5 and `maxCount = 5`. -/
theorem trending_computation (l : List TrendingPost) :
    (∀ p ∈ l, p.commentCount ≤ maxCount l) ∧
    (l ≠ [] → ∃ p ∈ l, p.commentCount = maxCount l) ∧
    (l = [] → maxCount l = 0) ∧
    (0 < maxCount l →
      trending l = l.filter (fun p => decide (p.commentCount = maxCount l))) ∧
    (maxCount l = 0 → trending l = []) ∧
    (l.map (fun p => p.commentCount) = [0, 0, 0] → trending l = [] ∧ maxCount l = 0) ∧
    (∀ a b c d : TrendingPost, l = [a, b, c, d] → a.commentCount = 2 →
      b.commentCount = 5 → c.commentCount = 5 → d.commentCount = 1 →
      trending l = [b, c] ∧ maxCount l = 5) := by
  refine ⟨le_maxCount l, exists_eq_maxCount l, ?_, trending_of_pos l, trending_of_zero l,
    ?_, ?_⟩
  · rintro rfl
    rfl
  · intro h
    have h0 : maxCount l = 0 := by simp [maxCount, h]
    exact ⟨trending_of_zero l h0, h0⟩
  · rintro a b c d rfl ha hb hc hd
    have h5 : maxCount [a, b, c, d] = 5 := by simp [maxCount, ha, hb, hc, hd]
    refine ⟨?_, h5⟩
    rw [trending_of_pos _ (by omega), h5]
    simp [List.filter, ha, hb, hc, hd]

/-- Four records with counts 2, 5, 5 and 1 give the two records with count 5
and `maxCount = 5`; three records without comments give no trending post. -/
theorem trending_computation_witness :
    (trending [sampleTrending 1 2, sampleTrending 2 5, sampleTrending 3 5,
        sampleTrending 4 1] = [sampleTrending 2 5, sampleTrending 3 5] ∧
      maxCount [sampleTrending 1 2, sampleTrending 2 5, sampleTrending 3 5,
        sampleTrending 4 1] = 5) ∧
    (trending [sampleTrending 1 0, sampleTrending 2 0, sampleTrending 3 0] = [] ∧
      maxCount [sampleTrending 1 0, sampleTrending 2 0, sampleTrending 3 0] = 0) :=
  ⟨(trending_computation _).2.2.2.2.2.2 _ _ _ _ rfl rfl rfl rfl rfl,
   (trending_computation _).2.2.2.2.2.1 rfl⟩

end SocialMediaAnalytics
